import Mathlib

/-!
Verification development for the `fflag` package: a Go library that parses a
`flag.FlagSet` from a simple line-oriented configuration file and can write the
current configuration back out in the same syntax.

Modelling conventions:
* Go strings are modelled as `List Char` (`Str`), so list algebra applies.
* The filesystem is a map from paths to file contents; a file's contents are
  the list of its lines, as `bufio.Scanner` delivers them.
* The external `flag.FlagSet` collaborator is modelled by `Flag`/`FlagSet`
  with the standard-library semantics used by this package: registration,
  lookup by name, a visit over all flags (the spec only requires a stable
  order; we use registration order), textual get/set of values, and the
  standard argument-parsing loop of `flag.(*FlagSet).Parse` with
  `ContinueOnError` behaviour.
* Go `error` values carrying data are modelled as structured inductives
  (`FErr`, `ArgErr`); the composite `errs` value is a `List FErr`.
-/

namespace Fflag

/-- Go strings modelled as lists of characters. -/
abbrev Str := List Char

/-- The newline character. -/
def nl : Char := Char.ofNat 10

/-- The single-quote character (one of the comment markers). -/
def sq : Char := Char.ofNat 39

/-- Go `unicode.IsSpace` on the characters relevant here (ASCII whitespace
plus the two Latin-1 space characters); `strings.TrimSpace` trims these. -/
def goIsSpace (c : Char) : Bool :=
  decide (c = ' ' ∨ c = Char.ofNat 9 ∨ c = Char.ofNat 10 ∨ c = Char.ofNat 11 ∨
    c = Char.ofNat 12 ∨ c = Char.ofNat 13 ∨ c = Char.ofNat 133 ∨ c = Char.ofNat 160)

/-- Go `strings.TrimSpace`: drop leading and trailing whitespace. -/
def trimSpace (s : Str) : Str :=
  ((s.dropWhile goIsSpace).reverse.dropWhile goIsSpace).reverse

/-- `isComment` from fflag.go: a line is a comment when it is empty, starts
with `//`, or its first byte is `;`, `#` or the single quote. -/
def isComment (line : Str) : Bool :=
  if line = [] then true
  else if line.take 2 = ['/', '/'] then true
  else decide (line.headD ' ' = ';' ∨ line.headD ' ' = '#' ∨ line.headD ' ' = sq)

/-- Go `strings.SplitN(line, " ", 2)`: the part before the first space, and
(when a space exists) the part after it. -/
def splitFirstSpace : Str → Str × Option Str
  | [] => ([], none)
  | c :: rest =>
    if c = ' ' then ([], some rest)
    else
      let p := splitFirstSpace rest
      (c :: p.1, p.2)

/-- `parseLine` from fflag.go: trim the line; a comment parses to the empty
key; otherwise split on the first space, the key being the first part and the
value being the trimmed remainder (empty when there is no space). -/
def parseLine (line : Str) : Str × Str :=
  let t := trimSpace line
  if isComment t then ([], [])
  else
    let p := splitFirstSpace t
    match p.2 with
    | none => (p.1, [])
    | some r => (p.1, trimSpace r)

/-- The `textFlags` map: association list updated in place, as a Go map. -/
abbrev SMap := List (Str × Str)

/-- Go map assignment `m[k] = v`: overwrite an existing entry or add one. -/
def mapSet : SMap → Str → Str → SMap
  | [], k, v => [(k, v)]
  | (k0, v0) :: rest, k, v =>
    if k0 = k then (k, v) :: rest else (k0, v0) :: mapSet rest k v

/-- Go map read `m[k]` (with presence flag). -/
def mapGet (m : SMap) (k : Str) : Option Str :=
  (m.find? (fun p => decide (p.1 = k))).map (fun p => p.2)

/-- One registered flag of the external `flag.FlagSet` collaborator: name,
usage text, default value, current value (its textual representation, as
`Value.String()` yields), the setter `Value.Set` (returning the new stored
textual value, or `none` on error), and whether it is a boolean flag. -/
structure Flag where
  name : Str
  usage : Str
  defValue : Str
  value : Str
  setv : Str → Option Str
  isBool : Bool

/-- The flag registry, in registration order. -/
abbrev FlagSet := List Flag

/-- `flag.FlagSet.Lookup`: find a flag by name. -/
def lookupFlag (fs : FlagSet) (k : Str) : Option Flag :=
  fs.find? (fun f => decide (f.name = k))

/-- Store a new textual value into the flag named `k`. -/
def updateFlag (fs : FlagSet) (k : Str) (nv : Str) : FlagSet :=
  fs.map (fun f => if f.name = k then { f with value := nv } else f)

/-- A `flag.String` registration: string flags store any value verbatim. -/
def stringFlag (name defv usage : Str) : Flag :=
  { name := name, usage := usage, defValue := defv, value := defv,
    setv := fun v => some v, isBool := false }

/-- Go `strconv.ParseBool`: the twelve accepted spellings. -/
def goParseBool (s : Str) : Option Bool :=
  if s = ("1").data ∨ s = ("t").data ∨ s = ("T").data ∨ s = ("true").data ∨
      s = ("TRUE").data ∨ s = ("True").data then some true
  else if s = ("0").data ∨ s = ("f").data ∨ s = ("F").data ∨ s = ("false").data ∨
      s = ("FALSE").data ∨ s = ("False").data then some false
  else none

/-- A `flag.Bool` registration: default `false`, setter via `strconv.ParseBool`,
stored textual value via `strconv.FormatBool`. -/
def boolFlag (name usage : Str) : Flag :=
  { name := name, usage := usage, defValue := ("false").data, value := ("false").data,
    setv := fun v => (goParseBool v).map (fun b => if b then ("true").data else ("false").data),
    isBool := true }

/-- Errors of the collaborator's argument-parsing loop (`flag.(*FlagSet).parseOne`). -/
inductive ArgErr where
  | badSyntax (arg : Str)
  | helpRequested
  | notDefined (name : Str)
  | needsArgument (name : Str)
  | setFailed (name : Str) (value : Str)
deriving DecidableEq

/-- Split at the first `=`. -/
def splitEqAny : Str → Str × Option Str
  | [] => ([], none)
  | c :: rest =>
    if c = '=' then ([], some rest)
    else
      let p := splitEqAny rest
      (c :: p.1, p.2)

/-- `flag.parseOne`'s `name=value` split: the scan for `=` starts at index 1
of the name portion (index 0 was already checked not to be `=`). -/
def splitEqFrom1 : Str → Str × Option Str
  | [] => ([], none)
  | c :: rest =>
    let p := splitEqAny rest
    (c :: p.1, p.2)

/-- The outcome of `flag.parseOne`: stop quietly (non-flag argument, `-`,
or `--`), fail, or continue with the updated registry — having consumed only
the flag argument itself (`contSame`) or also the following value argument
(`contSkip`). -/
inductive PStep where
  | stop
  | err (e : ArgErr)
  | contSame (fs2 : FlagSet)
  | contSkip (fs2 : FlagSet)

/-- `flag.(*FlagSet).parseOne`: examine the first remaining argument `s` (with
`rest` available to supply a non-boolean flag's value); boolean flags take an
optional `=value`, other flags take `=value` or the following argument. -/
def parseOne (fs : FlagSet) (s : Str) (rest : List Str) : PStep :=
  match s with
  | [] => PStep.stop
  | c :: s1 =>
    if c ≠ '-' then PStep.stop
    else
      match s1 with
      | [] => PStep.stop
      | c1 :: s2 =>
        if c1 = '-' ∧ s2 = [] then PStep.stop
        else
          let nm : Str := if c1 = '-' then s2 else c1 :: s2
          if nm = [] ∨ nm.headD ' ' = '-' ∨ nm.headD ' ' = '=' then
            PStep.err (ArgErr.badSyntax s)
          else
            let p := splitEqFrom1 nm
            match lookupFlag fs p.1 with
            | none =>
              if p.1 = ("help").data ∨ p.1 = ("h").data then PStep.err ArgErr.helpRequested
              else PStep.err (ArgErr.notDefined p.1)
            | some f =>
              if f.isBool then
                match p.2 with
                | some v =>
                  match f.setv v with
                  | some nv => PStep.contSame (updateFlag fs p.1 nv)
                  | none => PStep.err (ArgErr.setFailed p.1 v)
                | none =>
                  match f.setv (("true").data) with
                  | some nv => PStep.contSame (updateFlag fs p.1 nv)
                  | none => PStep.err (ArgErr.setFailed p.1 (("true").data))
              else
                match p.2 with
                | some v =>
                  match f.setv v with
                  | some nv => PStep.contSame (updateFlag fs p.1 nv)
                  | none => PStep.err (ArgErr.setFailed p.1 v)
                | none =>
                  match rest with
                  | [] => PStep.err (ArgErr.needsArgument p.1)
                  | v :: _ =>
                    match f.setv v with
                    | some nv => PStep.contSkip (updateFlag fs p.1 nv)
                    | none => PStep.err (ArgErr.setFailed p.1 v)

/-- `flag.(*FlagSet).Parse` with `ContinueOnError`: run `parseOne` over the
arguments left to right.  Returns the registry (mutations persist even when an
error is returned) and the error, if any. -/
def fsParse (fs : FlagSet) (args : List Str) : FlagSet × Option ArgErr :=
  match args with
  | [] => (fs, none)
  | s :: rest =>
    match parseOne fs s rest with
    | PStep.stop => (fs, none)
    | PStep.err e => (fs, some e)
    | PStep.contSame fs2 => fsParse fs2 rest
    | PStep.contSkip fs2 =>
      match rest with
      | [] => (fs2, none)
      | _ :: rest2 => fsParse fs2 rest2
-- `contSkip` is only produced when `rest` has a head, so the `[]` arm above is
-- unreachable; it is given the loop's quiet-stop result.

/-- `getFlagConfigPath` from fflag.go: a disposable flag set holding only the
config-path string flag (default empty) parses the raw process arguments; the
error is discarded, values set before any error persist. -/
def getFlagConfigPath (configFlagName : Str) (osArgs : List Str) : Str :=
  let f0 : FlagSet := [stringFlag configFlagName [] (("path to config file").data)]
  let r := fsParse f0 osArgs
  match lookupFlag r.1 configFlagName with
  | some f => f.value
  | none => []

/-- `getFlagWriteConfig` from fflag.go: a disposable flag set holding only the
write-config boolean flag parses the raw process arguments; the error is
discarded. -/
def getFlagWriteConfig (writeConfigFlagName : Str) (osArgs : List Str) : Bool :=
  let f0 : FlagSet := [boolFlag writeConfigFlagName (("write configuration to stdout").data)]
  let r := fsParse f0 osArgs
  match lookupFlag r.1 writeConfigFlagName with
  | some f => decide (f.value = ("true").data)
  | none => false

/-- The recoverable and fatal error values produced by the parser, carrying
the data the Go code interpolates into its error messages. -/
inductive FErr where
  /-- `fflag: config file %q line %d contains unknown flag name %q` -/
  | unknownFlag (path : Str) (lineNo : Nat) (name : Str)
  /-- `fflag: error setting flag %q = %q from config file %q: %w` -/
  | setFailed (name : Str) (value : Str) (path : Str)
  /-- `fflag: error reading -%s=%q: %w` -/
  | fileOpen (configFlagName : Str) (path : Str)
deriving DecidableEq

/-- The mutable state of the `parser` struct from fflag.go. -/
structure Parser where
  path : Str
  configFlagName : Str
  fileMustExist : Bool
  lineNo : Nat
  textFlags : SMap
  errors : List FErr

/-- `parser.scanLine`: bump the line counter, parse the line; an empty key is
skipped; otherwise record key→value in `textFlags` and, when no registered
flag carries the key, append an unknown-flag error. -/
def scanLine (fs : FlagSet) (p : Parser) (line : Str) : Parser :=
  let p1 := { p with lineNo := p.lineNo + 1 }
  let kv := parseLine line
  if kv.1 = [] then p1
  else
    let p2 := { p1 with textFlags := mapSet p1.textFlags kv.1 kv.2 }
    match lookupFlag fs kv.1 with
    | none => { p2 with errors := p2.errors ++ [FErr.unknownFlag p2.path p2.lineNo kv.1] }
    | some _ => p2

/-- The filesystem: maps a path to a file's lines, or `none` when absent. -/
abbrev FileSys := Str → Option (List Str)

/-- `parser.scanTextFlags`: open the path; absence is tolerated unless the
file must exist (fatal `fileOpen` error); otherwise scan every line, keeping
per-line errors in the parser state. -/
def scanTextFlags (fileSys : FileSys) (fs : FlagSet) (p : Parser) : Parser × Option FErr :=
  match fileSys p.path with
  | none =>
    if p.fileMustExist then (p, some (FErr.fileOpen p.configFlagName p.path))
    else (p, none)
  | some lines => (lines.foldl (scanLine fs) p, none)

/-- The value part of `parser.visitFlag`: when `textFlags` holds the flag's
name, attempt the flag's own setter; on failure the value is unchanged. -/
def visitValue (m : SMap) (f : Flag) : Flag :=
  match mapGet m f.name with
  | none => f
  | some v =>
    match f.setv v with
    | some nv => { f with value := nv }
    | none => f

/-- The error part of `parser.visitFlag`: a setter failure is collected as a
recoverable error naming the flag, the attempted value, and the file path. -/
def visitError (m : SMap) (path : Str) (f : Flag) : Option FErr :=
  match mapGet m f.name with
  | none => none
  | some v =>
    match f.setv v with
    | some _ => none
    | none => some (FErr.setFailed f.name v path)

/-- `fs.VisitAll(p.visitFlag)`: apply `visitFlag` to every registered flag
(the collaborator contract only requires a stable order; registration order
is used), yielding the updated registry and the collected setter errors. -/
def visitAll (m : SMap) (path : Str) (fs : FlagSet) : FlagSet × List FErr :=
  (fs.map (visitValue m), fs.filterMap (visitError m path))

/-- Completion of `ParseArgs`, distinguishing the plain success, the
`ErrWriteConfig` sentinel (with what was written to stdout), the fatal scan
error, the combined recoverable errors, and an argument-parse error. -/
inductive Outcome where
  | ok
  | errWriteConfig (output : Str)
  | fatal (e : FErr)
  | collected (es : List FErr)
  | argError (e : ArgErr)
deriving DecidableEq

/-- `parser.parse`: scan the file (a scan error is fatal and leaves the
registry untouched), then visit all flags applying the scanned values; if any
errors accumulated (scan errors then setter errors) return them combined. -/
def parserParse (fileSys : FileSys) (fs : FlagSet) (p : Parser) : FlagSet × Option Outcome :=
  match scanTextFlags fileSys fs p with
  | (_, some e) => (fs, some (Outcome.fatal e))
  | (p1, none) =>
    let r := visitAll p1.textFlags p1.path fs
    let errs := p1.errors ++ r.2
    if errs = [] then (r.1, none) else (r.1, some (Outcome.collected errs))

/-- `Options` from fflag.go. -/
structure Options where
  path : Str
  configFlagName : Str
  writeConfigFlagName : Str

/-- `NewDefaultOptions` from fflag.go. -/
def NewDefaultOptions : Options :=
  { path := ("config.txt").data, configFlagName := ("config").data,
    writeConfigFlagName := ("write-config").data }

/-- The two control-flag registrations at the top of `ParseArgs`:
`fs.String(o.ConfigFlagName, o.Path, ...)` and, when a name was supplied,
`fs.Bool(o.WriteConfigFlagName, false, ...)`. -/
def registerControls (fs : FlagSet) (o : Options) : FlagSet :=
  let fs1 := fs ++ [stringFlag o.configFlagName o.path (("path to config file").data)]
  if o.writeConfigFlagName ≠ [] then
    fs1 ++ [boolFlag o.writeConfigFlagName (("write configuration to stdout and exit").data)]
  else fs1

/-- The parser state `ParseArgs` builds: when the override path is nonempty
the file must exist and is the effective path; otherwise the default path is
used and may be absent. -/
def mkParser (o : Options) (cp : Str) : Parser :=
  if cp ≠ [] then
    { path := cp, configFlagName := o.configFlagName, fileMustExist := true,
      lineNo := 0, textFlags := [], errors := [] }
  else
    { path := o.path, configFlagName := o.configFlagName, fileMustExist := false,
      lineNo := 0, textFlags := [], errors := [] }

/-- The per-character form of `strings.ReplaceAll(s, "\n", "\n#"+ind)`: the
replaced substring is a single character, so the replacement acts char-wise. -/
def mlcRep (indent : Nat) (c : Char) : Str :=
  if c = nl then nl :: '#' :: List.replicate indent ' ' else [c]

/-- `multilineComment` from fflag.go: prefix with `#` plus `indent` spaces and
re-prefix after every newline. -/
def multilineComment (s : Str) (indent : Nat) : Str :=
  ('#' :: List.replicate indent ' ') ++ s.flatMap (mlcRep indent)

/-- The fixed syntax-help text `WriteFlagSetConfig` emits first (built by
concatenation only because the single-quote character is spelled `sq`). -/
def headerText : Str :=
  ("fflag file syntax:\n\n  flag-name flag-value\n\nwhere flag-name is an argument name without the \"-\" prefix.\n\nComments begin with any of these: # ").data
  ++ [sq] ++ (" ; //\n\nLeading and trailing whitespace is ignored on each line, key and value.").data

/-- The per-flag output of `WriteFlagSetConfig`: name comment, usage comment,
default comment, then — only when the current value differs from the default —
an active `name value` line, then a blank line. -/
def flagBlock (f : Flag) : Str :=
  ("# ").data ++ f.name ++ (nl :: multilineComment f.usage 3)
  ++ ("\n#\n# default:\n# ").data ++ f.name ++ (" ").data ++ f.defValue ++ [nl]
  ++ (if f.defValue ≠ f.value then f.name ++ (" ").data ++ f.value ++ [nl] else [])
  ++ [nl]

/-- `WriteFlagSetConfig` from fflag.go: the syntax-help header, a blank
separator, then one block per non-ignored flag in visitation order. -/
def writeFlagSetConfig (fs : FlagSet) (ignoreFlags : List Str) : Str :=
  multilineComment headerText 1 ++ [nl, nl]
  ++ (fs.filter (fun f => decide (f.name ∉ ignoreFlags))).flatMap flagBlock

/-- `ParseArgs` from fflag.go: default the options; register the two control
flags; resolve the effective path from the raw process arguments (`os.Args`);
run the file parser (fatal or combined errors abort before the registry's own
argument parse); parse the supplied argument list through the registry; then,
when the write-config trigger was set in the raw process arguments, write the
configuration (ignoring the two control flags) and return the sentinel. -/
def ParseArgs (fileSys : FileSys) (osArgs : List Str) (fs : FlagSet) (o? : Option Options)
    (args : List Str) : FlagSet × Outcome :=
  let o := o?.getD NewDefaultOptions
  let fs1 := registerControls fs o
  let cp := getFlagConfigPath o.configFlagName osArgs
  let p := mkParser o cp
  match parserParse fileSys fs1 p with
  | (fs2, some e) => (fs2, e)
  | (fs2, none) =>
    let r := fsParse fs2 args
    match r.2 with
    | some e => (r.1, Outcome.argError e)
    | none =>
      if getFlagWriteConfig o.writeConfigFlagName osArgs then
        (r.1, Outcome.errWriteConfig (writeFlagSetConfig r.1 [o.configFlagName, o.writeConfigFlagName]))
      else (r.1, Outcome.ok)

/-! ### Derived definitions used by the verification -/

/-- Split a string at every newline. -/
def splitNl : Str → List Str
  | [] => [[]]
  | c :: cs =>
    if c = nl then [] :: splitNl cs
    else
      match splitNl cs with
      | [] => [[c]]
      | l :: ls => (c :: l) :: ls

/-- Join lines, each terminated by a newline. -/
def linesJoin (ls : List Str) : Str :=
  ls.flatMap (fun l => l ++ [nl])

/-- The lines of `multilineComment`, as produced by the writer. -/
def mlcLines (s : Str) (ind : Nat) : List Str :=
  splitNl (multilineComment s ind)

/-- The lines of one flag's block in the written config. -/
def blockLines (f : Flag) : List Str :=
  (("# ").data ++ f.name) ::
    (mlcLines f.usage 3 ++
      [("#").data, ("# default:").data, ("# ").data ++ f.name ++ (" ").data ++ f.defValue] ++
      (if f.defValue ≠ f.value then [f.name ++ (" ").data ++ f.value] else []) ++ [[]])

/-- A flag name that can appear as the key of an active config line: nonempty,
free of whitespace, and not itself shaped like a comment. -/
def wfName (k : Str) : Prop :=
  k ≠ [] ∧ (∀ c ∈ k, goIsSpace c = false) ∧ isComment k = false

/-- A value that survives the scanner's trimming intact: no embedded newline
and no leading or trailing whitespace. -/
def wfValue (v : Str) : Prop :=
  nl ∉ v ∧ (∀ c ∈ v.head?, goIsSpace c = false) ∧ (∀ c ∈ v.getLast?, goIsSpace c = false)

instance (k : Str) : Decidable (wfName k) := by
  unfold wfName
  infer_instance

instance (v : Str) : Decidable (wfValue v) := by
  unfold wfValue
  infer_instance

/-- The key/value entry a line contributes, if any. -/
def lineEntry (l : Str) : Option (Str × Str) :=
  let kv := parseLine l
  if kv.1 = [] then none else some kv

/-- Modelled from the spec (§6): "Key = first whitespace-delimited token" —
the competing characterisation of the parsed key, for comparison with the
source's `parseLine`. -/
def specFirstToken (line : Str) : Str :=
  (trimSpace line).takeWhile (fun c => ! goIsSpace c)

/-- Whether an outcome is the `ErrWriteConfig` sentinel. -/
def isErrWriteConfig : Outcome → Bool
  | Outcome.errWriteConfig _ => true
  | _ => false

/-! ### Lemmas about the key/value map -/

theorem mapGet_mapSet_self (m : SMap) (k v : Str) : mapGet (mapSet m k v) k = some v := by
  induction m with
  | nil => simp [mapSet, mapGet]
  | cons e rest ih =>
    obtain ⟨k0, v0⟩ := e
    by_cases h : k0 = k
    · simp [mapSet, h, mapGet]
    · simpa [mapSet, h, mapGet] using ih

theorem mapGet_mapSet_ne (m : SMap) {k k' : Str} (v : Str) (h : k' ≠ k) :
    mapGet (mapSet m k v) k' = mapGet m k' := by
  induction m with
  | nil => simp [mapSet, mapGet, Ne.symm h]
  | cons e rest ih =>
    obtain ⟨k0, v0⟩ := e
    by_cases h0 : k0 = k
    · subst h0
      simp [mapSet, mapGet, Ne.symm h, h]
    · by_cases h1 : k0 = k'
      · simp [mapSet, h0, mapGet, h1, h]
      · simpa [mapSet, h0, mapGet, h1] using ih

/-! ### Lemmas about flag lookup and update -/

theorem lookupFlag_append {fs g : FlagSet} {k : Str} {x : Flag}
    (h : lookupFlag fs k = some x) : lookupFlag (fs ++ g) k = some x := by
  simp [lookupFlag] at h ⊢
  simp [List.find?_append, h, Option.or]

theorem lookupFlag_eq_none_iff {fs : FlagSet} {k : Str} :
    lookupFlag fs k = none ↔ ∀ f ∈ fs, f.name ≠ k := by
  simp [lookupFlag]

theorem lookupFlag_name {fs : FlagSet} {k : Str} {x : Flag}
    (h : lookupFlag fs k = some x) : x.name = k := by
  have := List.find?_some h
  simpa using this

theorem lookupFlag_map {g : Flag → Flag} (hg : ∀ f, (g f).name = f.name) (fs : FlagSet)
    (k : Str) : lookupFlag (fs.map g) k = (lookupFlag fs k).map g := by
  simp only [lookupFlag, List.find?_map]
  have : ((fun f => decide (f.name = k)) ∘ g) = (fun f : Flag => decide (f.name = k)) := by
    funext f
    simp [hg]
  rw [this]

theorem updateFlag_eq_map (fs : FlagSet) (k nv : Str) :
    updateFlag fs k nv = fs.map (fun f => if f.name = k then { f with value := nv } else f) :=
  rfl

theorem updFn_name (k nv : Str) (f : Flag) :
    (if f.name = k then { f with value := nv } else f).name = f.name := by
  by_cases h : f.name = k <;> simp [h]

theorem lookupFlag_updateFlag (fs : FlagSet) (k' k nv : Str) :
    lookupFlag (updateFlag fs k nv) k' =
      (lookupFlag fs k').map (fun f => if f.name = k then { f with value := nv } else f) := by
  rw [updateFlag_eq_map, lookupFlag_map (updFn_name k nv) fs k']

theorem lookupFlag_updateFlag_self {fs : FlagSet} {k : Str} {x : Flag} (nv : Str)
    (h : lookupFlag fs k = some x) :
    lookupFlag (updateFlag fs k nv) k = some { x with value := nv } := by
  rw [lookupFlag_updateFlag, h]
  simp [lookupFlag_name h]

theorem visitValue_name (m : SMap) (f : Flag) : (visitValue m f).name = f.name := by
  unfold visitValue
  cases h : mapGet m f.name with
  | none => rfl
  | some v => cases h2 : f.setv v <;> simp [h2]

theorem visitValue_of_get_none {m : SMap} {f : Flag} (h : mapGet m f.name = none) :
    visitValue m f = f := by
  unfold visitValue
  rw [h]

theorem visitValue_of_get_some {m : SMap} {f : Flag} {v nv : Str}
    (h : mapGet m f.name = some v) (h2 : f.setv v = some nv) :
    visitValue m f = { f with value := nv } := by
  unfold visitValue
  rw [h]
  simp [h2]

theorem visitValue_setv (m : SMap) (f : Flag) : (visitValue m f).setv = f.setv := by
  unfold visitValue
  cases h : mapGet m f.name with
  | none => rfl
  | some v => cases h2 : f.setv v <;> simp [h2]

theorem visitValue_isBool (m : SMap) (f : Flag) : (visitValue m f).isBool = f.isBool := by
  unfold visitValue
  cases h : mapGet m f.name with
  | none => rfl
  | some v => cases h2 : f.setv v <;> simp [h2]

theorem visitAll_empty (path : Str) (fs : FlagSet) : visitAll [] path fs = (fs, []) := by
  unfold visitAll
  have h1 : fs.map (visitValue []) = fs := by
    have hc : ∀ f ∈ fs, visitValue [] f = id f := fun f _ => visitValue_of_get_none rfl
    rw [List.map_congr_left hc, List.map_id]
  have h2 : fs.filterMap (visitError [] path) = [] := by
    simp only [List.filterMap_eq_nil_iff]
    intro f _
    rfl
  rw [h1, h2]

/-! ### Lemmas about trimming and splitting -/

theorem dropWhile_eq_self_of_head {s : Str} (h : ∀ c ∈ s.head?, goIsSpace c = false) :
    s.dropWhile goIsSpace = s := by
  cases s with
  | nil => rfl
  | cons c t =>
    have : goIsSpace c = false := h c rfl
    simp [List.dropWhile_cons, this]

theorem trimSpace_eq_self {s : Str} (h1 : ∀ c ∈ s.head?, goIsSpace c = false)
    (h2 : ∀ c ∈ s.getLast?, goIsSpace c = false) : trimSpace s = s := by
  unfold trimSpace
  rw [dropWhile_eq_self_of_head h1, dropWhile_eq_self_of_head (by simpa using h2),
    List.reverse_reverse]

theorem dropWhile_isSuffix (p : Char → Bool) (l : Str) : ∃ t, t ++ l.dropWhile p = l := by
  induction l with
  | nil => exact ⟨[], rfl⟩
  | cons c t ih =>
    by_cases h : p c
    · obtain ⟨u, hu⟩ := ih
      exact ⟨c :: u, by simp [List.dropWhile_cons, h, hu]⟩
    · exact ⟨[], by simp [List.dropWhile_cons, h]⟩

/-- Trimming a line that starts with a non-whitespace character keeps that
character in front, followed by a prefix of the rest of the line. -/
theorem trimSpace_cons {c : Char} (t : Str) (hc : goIsSpace c = false) :
    ∃ t1 t2, trimSpace (c :: t) = c :: t1 ∧ t1 ++ t2 = t := by
  have h1 : (c :: t).dropWhile goIsSpace = c :: t :=
    dropWhile_eq_self_of_head (by intro x hx; simp at hx; subst hx; exact hc)
  unfold trimSpace
  rw [h1]
  have hrev : (c :: t).reverse = t.reverse ++ [c] := by simp
  rw [hrev, List.dropWhile_append]
  by_cases h : (t.reverse.dropWhile goIsSpace).isEmpty
  · refine ⟨[], t, ?_, by simp⟩
    simp [h, List.dropWhile_cons, hc]
  · simp only [h, if_false]
    obtain ⟨u, hu⟩ := dropWhile_isSuffix goIsSpace t.reverse
    refine ⟨(t.reverse.dropWhile goIsSpace).reverse, u.reverse, by simp, ?_⟩
    have := congrArg List.reverse hu
    simpa using this

theorem isComment_hash_head (t1 : Str) : isComment ('#' :: t1) = true := by
  have hne : ('#' :: t1 : Str) ≠ [] := by simp
  have htake : ('#' :: t1 : Str).take 2 ≠ ['/', '/'] := by
    cases t1 <;> simp [List.take]
  simp [isComment, hne, htake]

theorem isComment_trim_hash (t : Str) : isComment (trimSpace ('#' :: t)) = true := by
  obtain ⟨t1, _, h, _⟩ := trimSpace_cons (c := '#') t (by decide)
  rw [h]
  exact isComment_hash_head t1

theorem parseLine_of_comment {l : Str} (h : isComment (trimSpace l) = true) :
    parseLine l = ([], []) := by
  unfold parseLine
  simp [h]

theorem parseLine_hash {t : Str} : parseLine ('#' :: t) = ([], []) :=
  parseLine_of_comment (isComment_trim_hash t)

theorem parseLine_nil : parseLine [] = ([], []) := rfl

theorem splitFirstSpace_no_space {k : Str} (h : (' ' : Char) ∉ k) :
    splitFirstSpace k = (k, none) := by
  induction k with
  | nil => rfl
  | cons c t ih =>
    simp only [List.mem_cons, not_or] at h
    have hc : ¬ (c = ' ') := fun hcc => h.1 hcc.symm
    simp [splitFirstSpace, hc, ih h.2]

theorem splitFirstSpace_append {k r : Str} (h : (' ' : Char) ∉ k) :
    splitFirstSpace (k ++ ' ' :: r) = (k, some r) := by
  induction k with
  | nil => simp [splitFirstSpace]
  | cons c t ih =>
    simp only [List.mem_cons, not_or] at h
    have hc : ¬ (c = ' ') := fun hcc => h.1 hcc.symm
    simp [splitFirstSpace, hc, ih h.2]

/-! ### Splitting a written string back into lines

`bufio.Scanner` over a written file yields its newline-separated lines.
`splitNl` is that decomposition (with a final empty field after a trailing
newline, which the scanner never yields but which parses as a blank line and
is therefore invisible to the config scanner). -/

theorem splitNl_ne_nil (s : Str) : splitNl s ≠ [] := by
  cases s with
  | nil => simp [splitNl]
  | cons c cs =>
    by_cases h : c = nl
    · simp [splitNl, h]
    · simp only [splitNl, h, if_false]
      cases splitNl cs <;> simp

theorem splitNl_no_nl {s : Str} (h : nl ∉ s) : splitNl s = [s] := by
  induction s with
  | nil => rfl
  | cons c cs ih =>
    simp only [List.mem_cons, not_or] at h
    have hc : ¬ (c = nl) := fun hcc => h.1 hcc.symm
    simp [splitNl, hc, ih h.2]

theorem splitNl_cons_of_ne {c : Char} (cs : Str) (h : ¬ (c = nl)) :
    splitNl (c :: cs) = (c :: (splitNl cs).headD []) :: (splitNl cs).tail := by
  simp only [splitNl, h, if_false]
  cases hs : splitNl cs with
  | nil => exact absurd hs (splitNl_ne_nil cs)
  | cons l ls => simp

theorem splitNl_append_no_nl {a : Str} (h : nl ∉ a) (x : Str) :
    splitNl (a ++ x) = (a ++ (splitNl x).headD []) :: (splitNl x).tail := by
  induction a with
  | nil =>
    simp only [List.nil_append]
    cases hs : splitNl x with
    | nil => exact absurd hs (splitNl_ne_nil x)
    | cons l ls => simp
  | cons c t ih =>
    simp only [List.mem_cons, not_or] at h
    have hc : ¬ (c = nl) := fun hcc => h.1 hcc.symm
    rw [List.cons_append, splitNl_cons_of_ne _ hc, ih h.2]
    simp

theorem splitNl_line {a : Str} (h : nl ∉ a) (x : Str) :
    splitNl (a ++ nl :: x) = a :: splitNl x := by
  rw [splitNl_append_no_nl h]
  have : splitNl (nl :: x) = [] :: splitNl x := by simp [splitNl]
  rw [this]
  simp

theorem splitNl_linesJoin_append {ls : List Str} (h : ∀ l ∈ ls, nl ∉ l) (x : Str) :
    splitNl (linesJoin ls ++ x) = ls ++ splitNl x := by
  induction ls with
  | nil => simp [linesJoin]
  | cons l rest ih =>
    have hl : nl ∉ l := h l (List.mem_cons_self l rest)
    have hrest : ∀ m ∈ rest, nl ∉ m := fun m hm => h m (List.mem_cons_of_mem l hm)
    have : linesJoin (l :: rest) ++ x = l ++ nl :: (linesJoin rest ++ x) := by
      simp [linesJoin]
    rw [this, splitNl_line hl, ih hrest]
    rfl

theorem splitNl_linesJoin {ls : List Str} (h : ∀ l ∈ ls, nl ∉ l) :
    splitNl (linesJoin ls) = ls ++ [[]] := by
  have := splitNl_linesJoin_append h []
  simpa [splitNl] using this

theorem linesJoin_splitNl (s : Str) : linesJoin (splitNl s) = s ++ [nl] := by
  induction s with
  | nil => simp [splitNl, linesJoin]
  | cons c cs ih =>
    by_cases h : c = nl
    · subst h
      simp [splitNl, linesJoin]
      simpa [linesJoin] using ih
    · rw [splitNl_cons_of_ne cs h]
      cases hs : splitNl cs with
      | nil => exact absurd hs (splitNl_ne_nil cs)
      | cons l ls =>
        rw [hs] at ih
        simp only [linesJoin, List.flatMap_cons] at ih ⊢
        simp at ih ⊢
        rw [ih]

theorem splitNl_mem_no_nl (s : Str) : ∀ l ∈ splitNl s, nl ∉ l := by
  induction s with
  | nil => simp [splitNl]
  | cons c cs ih =>
    by_cases h : c = nl
    · simp only [splitNl, h, if_true]
      intro l hl
      rcases List.mem_cons.mp hl with h1 | h1
      · simp [h1]
      · exact ih l h1
    · rw [splitNl_cons_of_ne cs h]
      intro l hl
      rcases List.mem_cons.mp hl with h1 | h1
      · subst h1
        intro hmem
        rcases List.mem_cons.mp hmem with h2 | h2
        · exact h h2.symm
        · cases hs : splitNl cs with
          | nil => exact absurd hs (splitNl_ne_nil cs)
          | cons m ms =>
            apply ih m (by rw [hs]; exact List.mem_cons_self m ms)
            rw [hs] at h2
            simpa using h2
      · cases hs : splitNl cs with
        | nil => exact absurd hs (splitNl_ne_nil cs)
        | cons m ms =>
          rw [hs] at h1
          exact ih l (by rw [hs]; exact List.mem_cons_of_mem m (by simpa using h1))

/-! ### The line structure of `multilineComment` and of the written config -/

theorem replicate_space_no_nl (n : Nat) : nl ∉ List.replicate n ' ' := by
  intro h
  have := List.eq_of_mem_replicate h
  exact absurd this (by decide)

theorem hash_ind_no_nl (n : Nat) : nl ∉ ('#' :: List.replicate n ' ' : Str) := by
  intro h
  rcases List.mem_cons.mp h with h1 | h1
  · exact absurd h1 (by decide)
  · exact replicate_space_no_nl n h1

theorem splitNl_flatMap_mlcRep (ind : Nat) (s : Str) :
    splitNl (s.flatMap (mlcRep ind)) =
      (splitNl s).headD [] ::
        (splitNl s).tail.map (fun l => ('#' :: List.replicate ind ' ') ++ l) := by
  induction s with
  | nil => simp [splitNl]
  | cons c cs ih =>
    cases hs : splitNl cs with
    | nil => exact absurd hs (splitNl_ne_nil cs)
    | cons a b =>
      rw [hs] at ih
      simp only [List.headD_cons, List.tail_cons] at ih
      by_cases h : c = nl
      · subst h
        have hflat : ((nl :: cs).flatMap (mlcRep ind) : Str) =
            nl :: (('#' :: List.replicate ind ' ') ++ cs.flatMap (mlcRep ind)) := by
          simp [mlcRep]
        rw [hflat]
        have h1 : splitNl (nl :: (('#' :: List.replicate ind ' ') ++ cs.flatMap (mlcRep ind))) =
            [] :: splitNl (('#' :: List.replicate ind ' ') ++ cs.flatMap (mlcRep ind)) := by
          simp [splitNl]
        rw [h1, splitNl_append_no_nl (hash_ind_no_nl ind), ih]
        have h2 : splitNl (nl :: cs) = [] :: splitNl cs := by simp [splitNl]
        rw [h2, hs]
        simp
      · have hflat : ((c :: cs).flatMap (mlcRep ind) : Str) = c :: cs.flatMap (mlcRep ind) := by
          simp [mlcRep, h]
        rw [hflat, splitNl_cons_of_ne _ h, ih, splitNl_cons_of_ne _ h, hs]
        simp

/-- The lines of a `multilineComment`: each line of the text, prefixed by `#`
and the indent. -/
theorem splitNl_multilineComment (s : Str) (ind : Nat) :
    splitNl (multilineComment s ind) =
      (splitNl s).map (fun l => '#' :: (List.replicate ind ' ' ++ l)) := by
  unfold multilineComment
  rw [splitNl_append_no_nl (hash_ind_no_nl ind), splitNl_flatMap_mlcRep]
  cases hs : splitNl s with
  | nil => exact absurd hs (splitNl_ne_nil s)
  | cons a b => simp

theorem mlcLines_hash_head (s : Str) (ind : Nat) :
    ∀ l ∈ mlcLines s ind, ∃ t, l = '#' :: t := by
  intro l hl
  rw [mlcLines, splitNl_multilineComment] at hl
  obtain ⟨m, _, rfl⟩ := List.mem_map.mp hl
  exact ⟨_, rfl⟩

theorem mlcLines_no_nl (s : Str) (ind : Nat) : ∀ l ∈ mlcLines s ind, nl ∉ l :=
  fun l hl => splitNl_mem_no_nl _ l hl

theorem flagBlock_eq_linesJoin (f : Flag) : flagBlock f = linesJoin (blockLines f) := by
  have husage : ((splitNl (multilineComment f.usage 3)).flatMap fun l => l ++ [nl]) =
      multilineComment f.usage 3 ++ [nl] := linesJoin_splitNl _
  have hnl : ('\n' : Char) = nl := rfl
  by_cases hd : f.defValue ≠ f.value <;>
    simp [flagBlock, blockLines, linesJoin, mlcLines, hd, husage, hnl] <;> rfl

theorem no_nl_append {a b : Str} (ha : nl ∉ a) (hb : nl ∉ b) : nl ∉ a ++ b := by
  intro h
  rcases List.mem_append.mp h with h1 | h1
  · exact ha h1
  · exact hb h1

theorem blockLines_no_nl {f : Flag} (h1 : nl ∉ f.name) (h2 : nl ∉ f.defValue)
    (h3 : nl ∉ f.value) : ∀ l ∈ blockLines f, nl ∉ l := by
  have hlit1 : nl ∉ (("# ").data : Str) := by decide
  have hlit2 : nl ∉ (("#").data : Str) := by decide
  have hlit3 : nl ∉ (("# default:").data : Str) := by decide
  have hlit4 : nl ∉ ((" ").data : Str) := by decide
  intro l hl
  rcases List.mem_cons.mp hl with rfl | hl2
  · exact no_nl_append hlit1 h1
  · rcases List.mem_append.mp hl2 with hl3 | hl3
    · rcases List.mem_append.mp hl3 with hl4 | hl4
      · rcases List.mem_append.mp hl4 with hl5 | hl5
        · exact mlcLines_no_nl _ _ l hl5
        · rcases List.mem_cons.mp hl5 with rfl | hl6
          · exact hlit2
          · rcases List.mem_cons.mp hl6 with rfl | hl7
            · exact hlit3
            · rcases List.mem_cons.mp hl7 with rfl | hl8
              · exact no_nl_append (no_nl_append (no_nl_append hlit1 h1) hlit4) h2
              · exact absurd hl8 (List.not_mem_nil l)
      · by_cases hd : f.defValue ≠ f.value
        · rw [if_pos hd] at hl4
          rcases List.mem_cons.mp hl4 with rfl | hl5
          · exact no_nl_append (no_nl_append h1 hlit4) h3
          · exact absurd hl5 (List.not_mem_nil l)
        · rw [if_neg hd] at hl4
          exact absurd hl4 (List.not_mem_nil l)
    · rcases List.mem_cons.mp hl3 with rfl | hl4
      · simp
      · exact absurd hl4 (List.not_mem_nil l)

/-- The full line decomposition of `WriteFlagSetConfig`'s output: the header
comment lines, a blank separator, each non-ignored flag's block, and the empty
final field after the trailing newline. -/
theorem splitNl_writeFlagSetConfig (fs : FlagSet) (ig : List Str)
    (h : ∀ f ∈ fs, nl ∉ f.name ∧ nl ∉ f.defValue ∧ nl ∉ f.value) :
    splitNl (writeFlagSetConfig fs ig) =
      mlcLines headerText 1 ++ [[]] ++
        (fs.filter (fun f => decide (f.name ∉ ig))).flatMap blockLines ++ [[]] := by
  have hw : writeFlagSetConfig fs ig =
      linesJoin (mlcLines headerText 1 ++ [[]]) ++
        (fs.filter (fun f => decide (f.name ∉ ig))).flatMap flagBlock := by
    have hheader : ((splitNl (multilineComment headerText 1)).flatMap fun l => l ++ [nl]) =
        multilineComment headerText 1 ++ [nl] := linesJoin_splitNl _
    simp [writeFlagSetConfig, linesJoin, hheader, mlcLines]
  rw [hw]
  have hno : ∀ l ∈ mlcLines headerText 1 ++ [[]], nl ∉ l := by
    intro l hl
    rcases List.mem_append.mp hl with h1 | h1
    · exact mlcLines_no_nl _ _ l h1
    · simp at h1
      subst h1
      simp
  rw [splitNl_linesJoin_append hno]
  have hblocks : ∀ (l : FlagSet), (∀ f ∈ l, nl ∉ f.name ∧ nl ∉ f.defValue ∧ nl ∉ f.value) →
      splitNl (l.flatMap flagBlock) = l.flatMap blockLines ++ [[]] := by
    intro l hlwf
    induction l with
    | nil => simp [splitNl]
    | cons f rest ih =>
      have hf := hlwf f (List.mem_cons_self f rest)
      have hrest := fun g hg => hlwf g (List.mem_cons_of_mem f hg)
      have : ((f :: rest).flatMap flagBlock : Str) =
          linesJoin (blockLines f) ++ rest.flatMap flagBlock := by
        simp [flagBlock_eq_linesJoin]
      rw [this, splitNl_linesJoin_append (blockLines_no_nl hf.1 hf.2.1 hf.2.2), ih hrest]
      simp
  have hfilter : ∀ f ∈ fs.filter (fun f => decide (f.name ∉ ig)),
      nl ∉ f.name ∧ nl ∉ f.defValue ∧ nl ∉ f.value :=
    fun f hf => h f (List.mem_of_mem_filter hf)
  rw [hblocks _ hfilter]
  simp

/-! ### Classification of lines: comment lines and active `key value` lines -/

theorem trimSpace_nil : trimSpace [] = [] := rfl

theorem isComment_nil : isComment [] = true := rfl

theorem wfName_no_nl {k : Str} (h : wfName k) : nl ∉ k := by
  intro hmem
  have := h.2.1 nl hmem
  revert this
  decide

theorem isComment_cons_false {c : Char} {t : Str} (h : isComment (c :: t) = false) :
    (c :: t : Str).take 2 ≠ ['/', '/'] ∧ ¬(c = ';' ∨ c = '#' ∨ c = sq) := by
  by_cases h1 : (c :: t : Str).take 2 = ['/', '/']
  · simp [isComment, h1] at h
  · refine ⟨h1, ?_⟩
    intro h2
    simp [isComment, h1, h2] at h

theorem isComment_active_false {k : Str} (v : Str) (hne : k ≠ [])
    (hsp : ∀ c ∈ k, goIsSpace c = false) (hcom : isComment k = false) :
    isComment (trimSpace (k ++ ' ' :: v)) = false := by
  obtain ⟨c, t, rfl⟩ := List.exists_cons_of_ne_nil hne
  have hc : goIsSpace c = false := hsp c (List.mem_cons_self c t)
  obtain ⟨t1, t2, htrim, hpre⟩ := trimSpace_cons (t ++ ' ' :: v) hc
  have hline : ((c :: t) ++ ' ' :: v : Str) = c :: (t ++ ' ' :: v) := rfl
  rw [hline, htrim]
  obtain ⟨htake, hmark⟩ := isComment_cons_false hcom
  have htake1 : (c :: t1 : Str).take 2 ≠ ['/', '/'] := by
    cases t1 with
    | nil =>
      intro hcontra
      simp [List.take] at hcontra
    | cons d t1r =>
      intro hcontra
      simp [List.take] at hcontra
      obtain ⟨hc', hd'⟩ := hcontra
      cases t with
      | nil =>
        have hd : d = ' ' := by
          simp at hpre
          exact hpre.1
        rw [hd] at hd'
        exact absurd hd' (by decide)
      | cons e tr =>
        have hd : d = e := by
          simp at hpre
          exact hpre.1
        apply htake
        simp [List.take, hc', ← hd, hd']
  unfold isComment
  rw [if_neg (by simp : ¬(c :: t1 : Str) = []), if_neg htake1]
  simp only [List.headD_cons]
  exact decide_eq_false hmark

theorem trimSpace_key_space {k : Str} (hne : k ≠ [])
    (hsp : ∀ c ∈ k, goIsSpace c = false) : trimSpace (k ++ [' ']) = k := by
  obtain ⟨c, t, rfl⟩ := List.exists_cons_of_ne_nil hne
  have hc : goIsSpace c = false := hsp c (List.mem_cons_self c t)
  unfold trimSpace
  have h1 : ((c :: t) ++ [' '] : Str).dropWhile goIsSpace = (c :: t) ++ [' '] :=
    dropWhile_eq_self_of_head (by intro x hx; simp at hx; subst hx; exact hc)
  rw [h1]
  have h2 : (((c :: t) ++ [' '] : Str)).reverse = ' ' :: (c :: t : Str).reverse := by simp
  rw [h2]
  have h3 : ((' ' : Char) :: (c :: t : Str).reverse).dropWhile goIsSpace =
      ((c :: t : Str).reverse).dropWhile goIsSpace :=
    List.dropWhile_cons_of_pos (by decide)
  rw [h3]
  have h4 : ((c :: t : Str).reverse).dropWhile goIsSpace = (c :: t : Str).reverse := by
    apply dropWhile_eq_self_of_head
    intro x hx
    simp only [List.head?_reverse] at hx
    exact hsp x (List.mem_of_getLast?_eq_some hx)
  rw [h4, List.reverse_reverse]

theorem trimSpace_active {k : Str} (c0 : Char) (v' : Str) (hne : k ≠ [])
    (hsp : ∀ c ∈ k, goIsSpace c = false)
    (hv2 : ∀ c ∈ (c0 :: v' : Str).getLast?, goIsSpace c = false) :
    trimSpace (k ++ ' ' :: c0 :: v') = k ++ ' ' :: c0 :: v' := by
  apply trimSpace_eq_self
  · intro x hx
    obtain ⟨c, t, rfl⟩ := List.exists_cons_of_ne_nil hne
    simp at hx
    subst hx
    exact hsp c (List.mem_cons_self c t)
  · intro x hx
    rw [List.getLast?_append] at hx
    have h0 : ((' ' :: c0 :: v' : Str)).getLast? = (c0 :: v' : Str).getLast? := by
      simp
    rw [h0] at hx
    have hsome : (c0 :: v' : Str).getLast? ≠ none := by
      simp
    cases hg : (c0 :: v' : Str).getLast? with
    | none => exact absurd hg hsome
    | some y =>
      rw [hg] at hx
      simp [Option.or] at hx
      subst hx
      exact hv2 y hg

/-- An active `key value` line parses back to exactly that key and value. -/
theorem parseLine_active {k : Str} (v : Str) (hn : wfName k) (hv : wfValue v) :
    parseLine (k ++ ' ' :: v) = (k, v) := by
  obtain ⟨hne, hsp, hcom⟩ := hn
  obtain ⟨_, hv1, hv2⟩ := hv
  have hcomline := isComment_active_false v hne hsp hcom
  have hsp' : (' ' : Char) ∉ k := by
    intro hmem
    have := hsp ' ' hmem
    revert this
    decide
  unfold parseLine
  rw [if_neg (by simp [hcomline])]
  cases v with
  | nil =>
    have htr : trimSpace (k ++ ' ' :: ([] : Str)) = k := by
      simpa using trimSpace_key_space hne hsp
    rw [htr, splitFirstSpace_no_space hsp']
  | cons c0 v' =>
    rw [trimSpace_active c0 v' hne hsp hv2, splitFirstSpace_append hsp']
    simp
    exact trimSpace_eq_self hv1 hv2

/-! ### The scanner over a list of lines -/

theorem scanLine_skip {fs : FlagSet} {p : Parser} {l : Str}
    (h : (parseLine l).1 = []) : scanLine fs p l = { p with lineNo := p.lineNo + 1 } := by
  simp [scanLine, h]

theorem scanLine_known {fs : FlagSet} {p : Parser} {l : Str} {k v : Str} {x : Flag}
    (h : parseLine l = (k, v)) (hk : k ≠ []) (hx : lookupFlag fs k = some x) :
    scanLine fs p l =
      { p with lineNo := p.lineNo + 1, textFlags := mapSet p.textFlags k v } := by
  simp [scanLine, h, hk, hx]

theorem scanLine_unknown {fs : FlagSet} {p : Parser} {l : Str} {k v : Str}
    (h : parseLine l = (k, v)) (hk : k ≠ []) (hx : lookupFlag fs k = none) :
    scanLine fs p l =
      { p with
        lineNo := p.lineNo + 1
        textFlags := mapSet p.textFlags k v
        errors := p.errors ++ [FErr.unknownFlag p.path (p.lineNo + 1) k] } := by
  simp [scanLine, h, hk, hx]

/-- Scanning lines whose every entry names a registered flag: the line counter
advances, the entries are folded into the map in order, and no error is
produced. -/
theorem scan_fold_known (fs : FlagSet) (lines : List Str) (p : Parser)
    (h : ∀ e ∈ lines.filterMap lineEntry, lookupFlag fs e.1 ≠ none) :
    lines.foldl (scanLine fs) p =
      { p with
        lineNo := p.lineNo + lines.length
        textFlags := (lines.filterMap lineEntry).foldl (fun m e => mapSet m e.1 e.2) p.textFlags } := by
  induction lines generalizing p with
  | nil => simp
  | cons l rest ih =>
    by_cases hk : (parseLine l).1 = []
    · have hent : lineEntry l = none := by simp [lineEntry, hk]
      have htail : ∀ e ∈ rest.filterMap lineEntry, lookupFlag fs e.1 ≠ none := by
        intro e he
        apply h
        rw [List.filterMap_cons_none hent]
        exact he
      rw [List.foldl_cons, scanLine_skip hk, List.filterMap_cons_none hent, ih _ htail]
      simp
      omega
    · have hpl : parseLine l = ((parseLine l).1, (parseLine l).2) := rfl
      have hent : lineEntry l = some ((parseLine l).1, (parseLine l).2) := by
        simp [lineEntry, hk]
      have hlook : lookupFlag fs (parseLine l).1 ≠ none := by
        apply h
        rw [List.filterMap_cons_some hent]
        exact List.mem_cons_self _ _
      have htail : ∀ e ∈ rest.filterMap lineEntry, lookupFlag fs e.1 ≠ none := by
        intro e he
        apply h
        rw [List.filterMap_cons_some hent]
        exact List.mem_cons_of_mem _ he
      cases hx : lookupFlag fs (parseLine l).1 with
      | none => exact absurd hx hlook
      | some x =>
        rw [List.foldl_cons, scanLine_known hpl hk hx, List.filterMap_cons_some hent,
          ih _ htail]
        simp
        omega

/-- Scanning only comment or blank lines just advances the line counter. -/
theorem scan_fold_comments (fs : FlagSet) (lines : List Str) (p : Parser)
    (h : ∀ l ∈ lines, isComment (trimSpace l) = true) :
    lines.foldl (scanLine fs) p = { p with lineNo := p.lineNo + lines.length } := by
  induction lines generalizing p with
  | nil => simp
  | cons l rest ih =>
    have hl := h l (List.mem_cons_self l rest)
    have hk : (parseLine l).1 = [] := by rw [parseLine_of_comment hl]
    rw [List.foldl_cons, scanLine_skip hk, ih _ (fun m hm => h m (List.mem_cons_of_mem l hm))]
    simp
    omega

theorem mapGet_foldl_not_mem {es : List (Str × Str)} {k : Str}
    (h : ∀ e ∈ es, e.1 ≠ k) (m : SMap) :
    mapGet (es.foldl (fun m e => mapSet m e.1 e.2) m) k = mapGet m k := by
  induction es generalizing m with
  | nil => rfl
  | cons e tl ih =>
    rw [List.foldl_cons, ih (fun x hx => h x (List.mem_cons_of_mem e hx)),
      mapGet_mapSet_ne _ _ (fun hk => h e (List.mem_cons_self e tl) hk.symm)]

/-- Folding entries into the map: a read of `k` sees the value of the last
entry with key `k`, or falls back to the initial map. -/
theorem mapGet_foldl_rev (es : List (Str × Str)) (m : SMap) (k : Str) :
    mapGet (es.foldl (fun m e => mapSet m e.1 e.2) m) k =
      match es.reverse.find? (fun e => decide (e.1 = k)) with
      | some e => some e.2
      | none => mapGet m k := by
  induction es generalizing m with
  | nil => simp
  | cons e tl ih =>
    rw [List.foldl_cons, ih]
    have hrev : ((e :: tl).reverse : List (Str × Str)) = tl.reverse ++ [e] := by simp
    rw [hrev, List.find?_append]
    cases hf : tl.reverse.find? (fun e => decide (e.1 = k)) with
    | some a => simp [Option.or]
    | none =>
      by_cases he : e.1 = k
      · subst he
        simp [Option.or, List.find?, mapGet_mapSet_self]
      · simp [Option.or, List.find?, he, mapGet_mapSet_ne _ _ (fun hk => he hk.symm)]

theorem reverse_find?_eq_filter_getLast? (es : List (Str × Str)) (p : Str × Str → Bool) :
    es.reverse.find? p = (es.filter p).getLast? := by
  induction es with
  | nil => rfl
  | cons e tl ih =>
    have hrev : ((e :: tl).reverse : List (Str × Str)) = tl.reverse ++ [e] := by simp
    rw [hrev, List.find?_append, ih]
    by_cases hp : p e
    · rw [List.filter_cons_of_pos hp]
      cases hfl : tl.filter p with
      | nil => simp [List.find?, hp, Option.or]
      | cons a b =>
        rw [List.getLast?_cons_cons]
        have : (tl.filter p).getLast? ≠ none := by
          rw [hfl]
          simp
        cases hg : (tl.filter p).getLast? with
        | none => exact absurd hg this
        | some y =>
          rw [hfl] at hg
          simp [Option.or, hg]
    · rw [List.filter_cons_of_neg hp]
      simp only [List.find?, hp, Option.or]
      cases (List.filter p tl).getLast? <;> rfl

/-- Folding entries with pairwise distinct keys: a read of `k` sees the unique
entry with key `k`, or falls back to the initial map. -/
theorem mapGet_foldl_nodup {es : List (Str × Str)} (hnd : (es.map Prod.fst).Nodup)
    (m : SMap) (k : Str) :
    mapGet (es.foldl (fun m e => mapSet m e.1 e.2) m) k =
      match es.find? (fun e => decide (e.1 = k)) with
      | some e => some e.2
      | none => mapGet m k := by
  induction es generalizing m with
  | nil => simp
  | cons e tl ih =>
    simp only [List.map_cons, List.nodup_cons] at hnd
    rw [List.foldl_cons]
    by_cases he : e.1 = k
    · have htl : ∀ x ∈ tl, x.1 ≠ k := by
        intro x hx hxk
        exact hnd.1 (by rw [he, ← hxk]; exact List.mem_map_of_mem Prod.fst hx)
      rw [mapGet_foldl_not_mem htl, he, mapGet_mapSet_self]
      simp [List.find?, he]
    · rw [ih hnd.2]
      cases hf : tl.find? (fun e => decide (e.1 = k)) with
      | some a => simp [List.find?, he, hf]
      | none => simp [List.find?, he, hf, mapGet_mapSet_ne _ _ (fun hk => he hk.symm)]

/-! ### Entries and active lines of the written configuration -/

theorem lineEntry_hash {t : Str} : lineEntry ('#' :: t) = none := by
  simp [lineEntry, parseLine_hash]

theorem lineEntry_nil : lineEntry [] = none := by
  simp [lineEntry, parseLine_nil]

theorem lineEntry_active {k v : Str} (hn : wfName k) (hv : wfValue v) :
    lineEntry (k ++ ' ' :: v) = some (k, v) := by
  simp [lineEntry, parseLine_active v hn hv, hn.1]

theorem blockLines_entries {f : Flag} (hn : wfName f.name) (hv : wfValue f.value) :
    (blockLines f).filterMap lineEntry =
      if f.defValue ≠ f.value then [(f.name, f.value)] else [] := by
  unfold blockLines
  have h1 : lineEntry (("# ").data ++ f.name) = none := lineEntry_hash (t := ' ' :: f.name)
  have hmlc : (mlcLines f.usage 3).filterMap lineEntry = [] := by
    rw [List.filterMap_eq_nil_iff]
    intro l hl
    obtain ⟨t, rfl⟩ := mlcLines_hash_head f.usage 3 l hl
    exact lineEntry_hash
  have h2 : lineEntry (("#").data) = none := lineEntry_hash (t := [])
  have h3 : lineEntry (("# default:").data) = none := lineEntry_hash (t := (" default:").data)
  have h4 : lineEntry (("# ").data ++ f.name ++ (" ").data ++ f.defValue) = none := by
    have : (("# ").data ++ f.name ++ (" ").data ++ f.defValue : Str) =
        '#' :: (' ' :: (f.name ++ (" ").data ++ f.defValue)) := by simp
    rw [this]
    exact lineEntry_hash
  have hopt : ((if f.defValue ≠ f.value then [f.name ++ (" ").data ++ f.value] else []).filterMap
      lineEntry) = if f.defValue ≠ f.value then [(f.name, f.value)] else [] := by
    by_cases hd : f.defValue ≠ f.value
    · rw [if_pos hd, if_pos hd]
      have he : (f.name ++ (" ").data ++ f.value : Str) = f.name ++ ' ' :: f.value := by simp
      rw [he, List.filterMap_cons_some (lineEntry_active hn hv)]
      rfl
    · rw [if_neg hd, if_neg hd]
      rfl
  rw [List.filterMap_cons_none h1, List.filterMap_append, List.filterMap_append,
    List.filterMap_append, hmlc]
  rw [List.filterMap_cons_none h2, List.filterMap_cons_none h3, List.filterMap_cons_none h4,
    hopt, List.filterMap_cons_none lineEntry_nil]
  simp

theorem notComment_hash {t : Str} : (! isComment (trimSpace ('#' :: t))) = false := by
  rw [isComment_trim_hash]
  rfl

theorem notComment_nil : (! isComment (trimSpace ([] : Str))) = false := rfl

theorem blockLines_active {f : Flag} (hn : wfName f.name) :
    (blockLines f).filter (fun l => ! isComment (trimSpace l)) =
      if f.defValue ≠ f.value then [f.name ++ ' ' :: f.value] else [] := by
  unfold blockLines
  have hmlc : (mlcLines f.usage 3).filter (fun l => ! isComment (trimSpace l)) = [] := by
    rw [List.filter_eq_nil_iff]
    intro l hl
    obtain ⟨t, rfl⟩ := mlcLines_hash_head f.usage 3 l hl
    simp [isComment_trim_hash]
  have hopt : ((if f.defValue ≠ f.value then [f.name ++ (" ").data ++ f.value] else []).filter
      (fun l => ! isComment (trimSpace l))) =
      if f.defValue ≠ f.value then [f.name ++ ' ' :: f.value] else [] := by
    by_cases hd : f.defValue ≠ f.value
    · rw [if_pos hd, if_pos hd]
      have he : (f.name ++ (" ").data ++ f.value : Str) = f.name ++ ' ' :: f.value := by simp
      rw [he]
      rw [List.filter_cons_of_pos (by
        rw [isComment_active_false f.value hn.1 hn.2.1 hn.2.2]
        rfl)]
      rfl
    · rw [if_neg hd, if_neg hd]
      rfl
  rw [List.filter_cons_of_neg (by simp [isComment_trim_hash]), List.filter_append,
    List.filter_append, List.filter_append, hmlc]
  rw [List.filter_cons_of_neg (by simp [isComment_trim_hash]),
    List.filter_cons_of_neg (by simp [isComment_trim_hash]),
    List.filter_cons_of_neg (by simp [isComment_trim_hash]), hopt,
    List.filter_cons_of_neg (by decide), List.filter_nil]
  simp

theorem flatMap_if_singleton {α β : Type} (l : List α) (p : α → Bool) (g : α → β) :
    (l.flatMap fun a => if p a then [g a] else []) = (l.filter p).map g := by
  induction l with
  | nil => rfl
  | cons a t ih =>
    by_cases hp : p a
    · rw [List.flatMap_cons, List.filter_cons_of_pos hp]
      simp only [hp, if_true, List.map_cons]
      rw [ih]
      rfl
    · rw [List.flatMap_cons, List.filter_cons_of_neg hp]
      simp only [hp, if_false]
      rw [ih]
      rfl

/-- The key/value entries the scanner reads back from a written config: one
entry per non-ignored flag whose value differs from its default. -/
theorem writer_entries (fs : FlagSet) (ig : List Str)
    (hwf : ∀ f ∈ fs, wfName f.name ∧ wfValue f.value ∧ nl ∉ f.defValue) :
    (splitNl (writeFlagSetConfig fs ig)).filterMap lineEntry =
      ((fs.filter (fun f => decide (f.name ∉ ig))).filter
        (fun f => decide (f.defValue ≠ f.value))).map (fun f => (f.name, f.value)) := by
  rw [splitNl_writeFlagSetConfig fs ig (fun f hf =>
    ⟨wfName_no_nl (hwf f hf).1, (hwf f hf).2.2, (hwf f hf).2.1.1⟩)]
  rw [List.filterMap_append, List.filterMap_append, List.filterMap_append]
  have hhead : (mlcLines headerText 1).filterMap lineEntry = [] := by
    rw [List.filterMap_eq_nil_iff]
    intro l hl
    obtain ⟨t, rfl⟩ := mlcLines_hash_head headerText 1 l hl
    exact lineEntry_hash
  have hblocks :
      ((fs.filter (fun f => decide (f.name ∉ ig))).flatMap blockLines).filterMap lineEntry =
      ((fs.filter (fun f => decide (f.name ∉ ig))).filter
        (fun f => decide (f.defValue ≠ f.value))).map (fun f => (f.name, f.value)) := by
    rw [List.filterMap_flatMap]
    have hcong : ∀ f ∈ fs.filter (fun f => decide (f.name ∉ ig)),
        (blockLines f).filterMap lineEntry =
          (fun f => if decide (f.defValue ≠ f.value) = true then [(f.name, f.value)] else []) f := by
      intro f hf
      have hm := hwf f (List.mem_of_mem_filter hf)
      rw [blockLines_entries hm.1 hm.2.1]
      by_cases hd : f.defValue ≠ f.value <;> simp [hd]
    rw [List.flatMap_congr hcong]
    exact flatMap_if_singleton _ _ _
  rw [hhead, hblocks]
  simp [lineEntry_nil]

/-- The active (non-comment) lines of a written config: exactly one
`name value` line per non-ignored flag whose value differs from its default. -/
theorem writer_active (fs : FlagSet) (ig : List Str)
    (hwf : ∀ f ∈ fs, wfName f.name ∧ nl ∉ f.value ∧ nl ∉ f.defValue) :
    (splitNl (writeFlagSetConfig fs ig)).filter (fun l => ! isComment (trimSpace l)) =
      ((fs.filter (fun f => decide (f.name ∉ ig))).filter
        (fun f => decide (f.defValue ≠ f.value))).map (fun f => f.name ++ ' ' :: f.value) := by
  rw [splitNl_writeFlagSetConfig fs ig (fun f hf =>
    ⟨wfName_no_nl (hwf f hf).1, (hwf f hf).2.2, (hwf f hf).2.1⟩)]
  rw [List.filter_append, List.filter_append, List.filter_append]
  have hhead : (mlcLines headerText 1).filter (fun l => ! isComment (trimSpace l)) = [] := by
    rw [List.filter_eq_nil_iff]
    intro l hl
    obtain ⟨t, rfl⟩ := mlcLines_hash_head headerText 1 l hl
    simp [isComment_trim_hash]
  have hblocks :
      ((fs.filter (fun f => decide (f.name ∉ ig))).flatMap blockLines).filter
        (fun l => ! isComment (trimSpace l)) =
      ((fs.filter (fun f => decide (f.name ∉ ig))).filter
        (fun f => decide (f.defValue ≠ f.value))).map (fun f => f.name ++ ' ' :: f.value) := by
    rw [List.filter_flatMap]
    have hcong : ∀ f ∈ fs.filter (fun f => decide (f.name ∉ ig)),
        (blockLines f).filter (fun l => ! isComment (trimSpace l)) =
          (fun f => if decide (f.defValue ≠ f.value) = true
            then [f.name ++ ' ' :: f.value] else []) f := by
      intro f hf
      have hm := hwf f (List.mem_of_mem_filter hf)
      rw [blockLines_active hm.1]
      by_cases hd : f.defValue ≠ f.value <;> simp [hd]
    rw [List.flatMap_congr hcong]
    exact flatMap_if_singleton _ _ _
  rw [hhead, hblocks]
  simp [notComment_nil]

/-! ### Unfolding equations for the parser pipeline -/

theorem lookupFlag_visitAll (m : SMap) (path : Str) (fs : FlagSet) (k : Str) :
    lookupFlag (visitAll m path fs).1 k = (lookupFlag fs k).map (visitValue m) :=
  lookupFlag_map (visitValue_name m) fs k

theorem parserParse_absent_tolerated {fileSys : FileSys} {fs : FlagSet} {p : Parser}
    (hf : fileSys p.path = none) (hmust : p.fileMustExist = false) :
    parserParse fileSys fs p =
      (let r := visitAll p.textFlags p.path fs
       let errs := p.errors ++ r.2
       if errs = [] then (r.1, none) else (r.1, some (Outcome.collected errs))) := by
  unfold parserParse scanTextFlags
  rw [hf, hmust]
  simp

theorem parserParse_absent_required {fileSys : FileSys} {fs : FlagSet} {p : Parser}
    (hf : fileSys p.path = none) (hmust : p.fileMustExist = true) :
    parserParse fileSys fs p =
      (fs, some (Outcome.fatal (FErr.fileOpen p.configFlagName p.path))) := by
  unfold parserParse scanTextFlags
  rw [hf, hmust]
  simp

theorem parserParse_of_scan {fileSys : FileSys} {fs : FlagSet} {p p1 : Parser}
    (hscan : scanTextFlags fileSys fs p = (p1, none)) :
    parserParse fileSys fs p =
      (let r := visitAll p1.textFlags p1.path fs
       let errs := p1.errors ++ r.2
       if errs = [] then (r.1, none) else (r.1, some (Outcome.collected errs))) := by
  unfold parserParse
  rw [hscan]

theorem scanTextFlags_some {fileSys : FileSys} {fs : FlagSet} {p : Parser} {lines : List Str}
    (hf : fileSys p.path = some lines) :
    scanTextFlags fileSys fs p = (lines.foldl (scanLine fs) p, none) := by
  unfold scanTextFlags
  rw [hf]

theorem ParseArgs_after_parse {fileSys : FileSys} {osArgs : List Str} {fs : FlagSet}
    {o : Options} {fs2 : FlagSet} (args : List Str)
    (hpp : parserParse fileSys (registerControls fs o)
      (mkParser o (getFlagConfigPath o.configFlagName osArgs)) = (fs2, none)) :
    ParseArgs fileSys osArgs fs (some o) args =
      (let r := fsParse fs2 args
       match r.2 with
       | some e => (r.1, Outcome.argError e)
       | none =>
         if getFlagWriteConfig o.writeConfigFlagName osArgs then
           (r.1, Outcome.errWriteConfig
             (writeFlagSetConfig r.1 [o.configFlagName, o.writeConfigFlagName]))
         else (r.1, Outcome.ok)) := by
  unfold ParseArgs
  simp only [Option.getD]
  rw [hpp]

theorem ParseArgs_parse_error {fileSys : FileSys} {osArgs : List Str} {fs : FlagSet}
    {o : Options} {fs2 : FlagSet} {e : Outcome} (args : List Str)
    (hpp : parserParse fileSys (registerControls fs o)
      (mkParser o (getFlagConfigPath o.configFlagName osArgs)) = (fs2, some e)) :
    ParseArgs fileSys osArgs fs (some o) args = (fs2, e) := by
  unfold ParseArgs
  simp only [Option.getD]
  rw [hpp]

/-! ### Parsing a single `-name=value` argument -/

theorem splitEqAny_append {t va : Str} (h : ('=' : Char) ∉ t) :
    splitEqAny (t ++ '=' :: va) = (t, some va) := by
  induction t with
  | nil => simp [splitEqAny]
  | cons c u ih =>
    simp only [List.mem_cons, not_or] at h
    have hc : ¬ (c = '=') := fun hcc => h.1 hcc.symm
    simp [splitEqAny, hc, ih h.2]

theorem fsParse_nil (fs : FlagSet) : fsParse fs [] = (fs, none) := rfl

theorem fsParse_single_eq {fs : FlagSet} {k va w : Str} {x : Flag}
    (hk : k ≠ []) (hh1 : k.headD ' ' ≠ '-') (hh2 : k.headD ' ' ≠ '=')
    (hknoeq : ('=' : Char) ∉ k) (hx : lookupFlag fs k = some x)
    (hset : x.setv va = some w) :
    fsParse fs ['-' :: (k ++ '=' :: va)] = (updateFlag fs k w, none) := by
  obtain ⟨c, t, rfl⟩ := List.exists_cons_of_ne_nil hk
  have hc1 : c ≠ '-' := by simpa using hh1
  have hc2 : c ≠ '=' := by simpa using hh2
  have ht : ('=' : Char) ∉ t := fun hm => hknoeq (List.mem_cons_of_mem _ hm)
  have harg : ('-' :: ((c :: t) ++ '=' :: va) : Str) = '-' :: c :: (t ++ '=' :: va) := rfl
  have hsplit : splitEqFrom1 (c :: (t ++ '=' :: va)) = (c :: t, some va) := by
    simp [splitEqFrom1, splitEqAny_append ht]
  have hstep : parseOne fs ('-' :: c :: (t ++ '=' :: va)) [] =
      PStep.contSame (updateFlag fs (c :: t) w) := by
    unfold parseOne
    simp [hc1, hc2, hsplit, hx, hset]
  rw [harg]
  simp [fsParse, hstep]

/-! ### Remaining helpers -/

theorem lookupFlag_ne_none_of_mem {fs : FlagSet} {k : Str} (h : ∃ f ∈ fs, f.name = k) :
    lookupFlag fs k ≠ none := by
  intro hn
  rw [lookupFlag_eq_none_iff] at hn
  obtain ⟨f, hf, hfk⟩ := h
  exact hn f hf hfk

theorem find?_unique {α : Type} {l : List α} {p : α → Bool} {a : α} (ha : a ∈ l)
    (hp : p a = true) (huniq : ∀ b ∈ l, p b = true → b = a) : l.find? p = some a := by
  induction l with
  | nil => cases ha
  | cons x t ih =>
    by_cases hx : p x = true
    · have hxa : x = a := huniq x (List.mem_cons_self x t) hx
      subst hxa
      simp [List.find?, hx]
    · rcases List.mem_cons.mp ha with rfl | hat
      · exact absurd hp hx
      · simp only [List.find?, Bool.of_not_eq_true hx]
        exact ih hat (fun b hb hpb => huniq b (List.mem_cons_of_mem x hb) hpb)

/-! ### The claims -/

/-- C6, counterexample to the claim as stated: on the line `a<TAB>b` the
parsed key is the whole line `a<TAB>b`, not the first whitespace-delimited
token `a`, and the parsed value is empty, not `b`: `parseLine` splits only at
a space character. -/
theorem c6_counterexample :
    parseLine ['a', Char.ofNat 9, 'b'] = (['a', Char.ofNat 9, 'b'], []) ∧
    (parseLine ['a', Char.ofNat 9, 'b']).1 ≠ specFirstToken ['a', Char.ofNat 9, 'b'] := by
  decide

/-- C6 (amended): for every non-comment line, the parsed key is the portion
of the trimmed line before the first space character (U+0020) and the parsed
value is the remainder after that space, trimmed; with no space in the trimmed
line the whole of it is the key and the value is empty.  Tabs and other
whitespace do not delimit the key. -/
theorem c6_amended_split (line k r : Str) (hk : (' ' : Char) ∉ k) :
    (trimSpace line = k ++ ' ' :: r → isComment (k ++ ' ' :: r) = false →
      parseLine line = (k, trimSpace r)) ∧
    (trimSpace line = k → isComment k = false → parseLine line = (k, [])) := by
  constructor
  · intro h1 hcom
    simp only [parseLine, h1, hcom, Bool.false_eq_true, if_false,
      splitFirstSpace_append hk]
  · intro h1 hcom
    simp only [parseLine, h1, hcom, Bool.false_eq_true, if_false,
      splitFirstSpace_no_space hk]

theorem c6_amended_split_witness :
    ((' ' : Char) ∉ ("key").data) ∧
    parseLine (("key value1 value2").data) = (("key").data, ("value1 value2").data) := by
  refine ⟨by decide, ?_⟩
  rw [(c6_amended_split (("key value1 value2").data) (("key").data) (("value1 value2").data)
    (by decide)).1 (by decide) (by decide)]
  decide

/-- C7: when the same key occurs on two or more non-comment lines of a file,
the value recorded in the parsed map is the one from the last such line, and
(when every key in the file names a registered flag) no error is produced by
the duplication. -/
theorem c7_last_occurrence_wins (fs : FlagSet) (lines : List Str) (k : Str)
    (path cfg : Str) (mustE : Bool)
    (hreg : ∀ e ∈ lines.filterMap lineEntry, lookupFlag fs e.1 ≠ none)
    (hocc : 2 ≤ ((lines.filterMap lineEntry).filter (fun e => decide (e.1 = k))).length) :
    mapGet ((lines.foldl (scanLine fs) ⟨path, cfg, mustE, 0, [], []⟩).textFlags) k =
      (((lines.filterMap lineEntry).filter (fun e => decide (e.1 = k))).getLast?).map
        (fun e => e.2) ∧
    (lines.foldl (scanLine fs) ⟨path, cfg, mustE, 0, [], []⟩).errors = [] := by
  rw [scan_fold_known fs lines _ hreg]
  refine ⟨?_, rfl⟩
  simp only []
  rw [mapGet_foldl_rev, reverse_find?_eq_filter_getLast?]
  cases hg : ((lines.filterMap lineEntry).filter (fun e => decide (e.1 = k))).getLast? with
  | none =>
    rw [List.getLast?_eq_none_iff] at hg
    rw [hg] at hocc
    simp at hocc
  | some e => simp

theorem c7_last_occurrence_wins_witness :
    2 ≤ ((([("k 1").data, ("k 2").data] : List Str).filterMap lineEntry).filter
      (fun e => decide (e.1 = ("k").data))).length ∧
    mapGet ((([("k 1").data, ("k 2").data] : List Str).foldl
        (scanLine [stringFlag (("k").data) [] []]) ⟨[], [], false, 0, [], []⟩).textFlags)
        (("k").data) = some (("2").data) := by
  have hfm : (([("k 1").data, ("k 2").data] : List Str).filterMap lineEntry) =
      [((("k").data : Str), (("1").data : Str)), ((("k").data : Str), (("2").data : Str))] := by
    decide
  have hreg : ∀ e ∈ ([("k 1").data, ("k 2").data] : List Str).filterMap lineEntry,
      lookupFlag [stringFlag (("k").data) [] []] e.1 ≠ none := by
    intro e he
    rw [hfm] at he
    rcases List.mem_cons.mp he with rfl | he2
    · intro hn
      rw [show lookupFlag [stringFlag (("k").data) [] []] (("k").data) =
        some (stringFlag (("k").data) [] []) from rfl] at hn
      cases hn
    · rcases List.mem_cons.mp he2 with rfl | he3
      · intro hn
        rw [show lookupFlag [stringFlag (("k").data) [] []] (("k").data) =
          some (stringFlag (("k").data) [] []) from rfl] at hn
        cases hn
      · exact absurd he3 (List.not_mem_nil e)
  refine ⟨by decide, ?_⟩
  have h := (c7_last_occurrence_wins [stringFlag (("k").data) [] []]
    [("k 1").data, ("k 2").data] (("k").data) [] [] false hreg (by decide)).1
  rw [h]
  decide

/-- C8: a file whose every line is blank after trimming or comment-marked
leaves the key/value map empty, produces no error, and the subsequent
apply-to-flags pass leaves the registry untouched. -/
theorem c8_comment_only_file (fileSys : FileSys) (fs : FlagSet) (lines : List Str)
    (path cfg : Str) (mustE : Bool) (hf : fileSys path = some lines)
    (hall : ∀ l ∈ lines, isComment (trimSpace l) = true) :
    (lines.foldl (scanLine fs) ⟨path, cfg, mustE, 0, [], []⟩).textFlags = [] ∧
    (lines.foldl (scanLine fs) ⟨path, cfg, mustE, 0, [], []⟩).errors = [] ∧
    parserParse fileSys fs ⟨path, cfg, mustE, 0, [], []⟩ = (fs, none) := by
  have hscan := scan_fold_comments fs lines ⟨path, cfg, mustE, 0, [], []⟩ hall
  refine ⟨by rw [hscan], by rw [hscan], ?_⟩
  rw [parserParse_of_scan (scanTextFlags_some hf), hscan]
  simp [visitAll_empty]

theorem c8_comment_only_file_witness :
    (∀ l ∈ ([("# a").data, [], ("; b").data, ("   ").data, ("// d").data, [sq, 'x']] : List Str),
      isComment (trimSpace l) = true) ∧
    parserParse (fun q => if q = ("c.txt").data then
        some [("# a").data, [], ("; b").data, ("   ").data, ("// d").data, [sq, 'x']]
      else none) [stringFlag (("n").data) [] []] ⟨("c.txt").data, [], false, 0, [], []⟩ =
      ([stringFlag (("n").data) [] []], none) :=
  ⟨by decide,
    (c8_comment_only_file
      (fun q => if q = ("c.txt").data then
        some [("# a").data, [], ("; b").data, ("   ").data, ("// d").data, [sq, 'x']]
      else none)
      [stringFlag (("n").data) [] []]
      [("# a").data, [], ("; b").data, ("   ").data, ("// d").data, [sq, 'x']]
      (("c.txt").data) [] false (by decide) (by decide)).2.2⟩

/-- C10: the config-path override and the write-config trigger are read from
the raw process arguments (`os.Args[1:]`), not from the `args` parameter of
`ParseArgs`: with the trigger (or override) present only in the raw arguments
it takes effect even though `args` never mentions it, and with it present only
in `args` it does not take effect. -/
theorem c10_detection_uses_raw_args :
    isErrWriteConfig (ParseArgs (fun _ => none) [("-write-config").data] [] none []).2 = true ∧
    (ParseArgs (fun _ => none) [] [] none [("-write-config").data]).2 = Outcome.ok ∧
    (ParseArgs (fun _ => none) [("-config=missing.txt").data] [] none []).2 =
      Outcome.fatal (FErr.fileOpen (("config").data) (("missing.txt").data)) ∧
    (ParseArgs (fun _ => none) [] [] none [("-config=missing.txt").data]).2 = Outcome.ok := by
  refine ⟨by decide, by decide, by decide, by decide⟩

/-- C4: when the raw process arguments supply a config-path override and the
named file does not exist, `ParseArgs` fails immediately with the fatal
file-open error — not a collected recoverable error — and the caller's flags
are returned exactly as registered, no value having been applied. -/
theorem c4_override_nonexistent (fileSys : FileSys) (osArgs : List Str) (fs : FlagSet)
    (o : Options) (args : List Str)
    (hne : getFlagConfigPath o.configFlagName osArgs ≠ [])
    (hf : fileSys (getFlagConfigPath o.configFlagName osArgs) = none) :
    ParseArgs fileSys osArgs fs (some o) args =
      (registerControls fs o,
        Outcome.fatal (FErr.fileOpen o.configFlagName
          (getFlagConfigPath o.configFlagName osArgs))) ∧
    (registerControls fs o).take fs.length = fs := by
  constructor
  · apply ParseArgs_parse_error
    have hmk : mkParser o (getFlagConfigPath o.configFlagName osArgs) =
        ⟨getFlagConfigPath o.configFlagName osArgs, o.configFlagName, true, 0, [], []⟩ := by
      unfold mkParser
      rw [if_pos hne]
    rw [hmk]
    exact parserParse_absent_required hf rfl
  · unfold registerControls
    by_cases hw : o.writeConfigFlagName ≠ []
    · rw [if_pos hw, List.append_assoc]
      exact List.take_left fs _
    · rw [if_neg hw]
      exact List.take_left fs _

theorem c4_override_nonexistent_witness :
    (getFlagConfigPath (("config").data) [("-config=gone.txt").data] ≠ []) ∧
    ParseArgs (fun _ => none) [("-config=gone.txt").data] [] (some NewDefaultOptions) [] =
      (registerControls [] NewDefaultOptions,
        Outcome.fatal (FErr.fileOpen (("config").data) (("gone.txt").data))) := by
  refine ⟨by decide, ?_⟩
  have h := (c4_override_nonexistent (fun _ => none) [("-config=gone.txt").data] []
    NewDefaultOptions [] (by decide) (by decide)).1
  rw [h]
  rfl

/-- C5: when no config-path override is scanned from the raw arguments and
the default path names no existing file, the file phase contributes nothing:
the result is exactly the registry's own parse of the arguments from the
freshly registered state, no fatal or collected error is possible, and with
no arguments every flag (all starting at its default) keeps its default. -/
theorem c5_default_missing (fileSys : FileSys) (osArgs : List Str) (fs : FlagSet)
    (o : Options) (args : List Str)
    (hcp : getFlagConfigPath o.configFlagName osArgs = [])
    (hf : fileSys o.path = none)
    (hdef : ∀ f ∈ fs, f.value = f.defValue) :
    (ParseArgs fileSys osArgs fs (some o) args).1 = (fsParse (registerControls fs o) args).1 ∧
    (∀ e, (ParseArgs fileSys osArgs fs (some o) args).2 ≠ Outcome.fatal e) ∧
    (∀ es, (ParseArgs fileSys osArgs fs (some o) args).2 ≠ Outcome.collected es) ∧
    (args = [] → ∀ f ∈ (ParseArgs fileSys osArgs fs (some o) args).1, f.value = f.defValue) := by
  have hmk : mkParser o (getFlagConfigPath o.configFlagName osArgs) =
      ⟨o.path, o.configFlagName, false, 0, [], []⟩ := by
    unfold mkParser
    rw [hcp]
    simp
  have hpp : parserParse fileSys (registerControls fs o)
      (mkParser o (getFlagConfigPath o.configFlagName osArgs)) =
      (registerControls fs o, none) := by
    rw [hmk, parserParse_absent_tolerated hf rfl]
    simp [visitAll_empty]
  have hmain := ParseArgs_after_parse args hpp
  have hdefReg : ∀ f ∈ registerControls fs o, f.value = f.defValue := by
    intro f hfm
    unfold registerControls at hfm
    by_cases hw : o.writeConfigFlagName ≠ []
    · rw [if_pos hw] at hfm
      rcases List.mem_append.mp hfm with h1 | h1
      · rcases List.mem_append.mp h1 with h2 | h2
        · exact hdef f h2
        · rcases List.mem_cons.mp h2 with rfl | h3
          · rfl
          · exact absurd h3 (List.not_mem_nil f)
      · rcases List.mem_cons.mp h1 with rfl | h3
        · rfl
        · exact absurd h3 (List.not_mem_nil f)
    · rw [if_neg hw] at hfm
      rcases List.mem_append.mp hfm with h1 | h1
      · exact hdef f h1
      · rcases List.mem_cons.mp h1 with rfl | h3
        · rfl
        · exact absurd h3 (List.not_mem_nil f)
  rcases hfs : fsParse (registerControls fs o) args with ⟨g, e⟩
  rw [hmain]
  simp only [hfs]
  refine ⟨?_, ?_, ?_, ?_⟩
  · cases e with
    | some e0 => rfl
    | none =>
      by_cases hw : getFlagWriteConfig o.writeConfigFlagName osArgs <;> simp [hw]
  · intro e0
    cases e with
    | some e1 => simp
    | none =>
      by_cases hw : getFlagWriteConfig o.writeConfigFlagName osArgs <;> simp [hw]
  · intro es
    cases e with
    | some e1 => simp
    | none =>
      by_cases hw : getFlagWriteConfig o.writeConfigFlagName osArgs <;> simp [hw]
  · intro hargs
    subst hargs
    rw [fsParse_nil] at hfs
    injection hfs with h1 h2
    subst h1
    subst h2
    by_cases hw : getFlagWriteConfig o.writeConfigFlagName osArgs
    · simpa [hw] using hdefReg
    · simpa [hw] using hdefReg

theorem c5_default_missing_witness :
    (getFlagConfigPath (("config").data) [] = []) ∧
    ((fun _ => (none : Option (List Str))) (NewDefaultOptions.path) = none) ∧
    (∀ f ∈ (ParseArgs (fun _ => none) [] [stringFlag (("n").data) (("d").data) []]
        (some NewDefaultOptions) []).1, f.value = f.defValue) := by
  refine ⟨by decide, rfl, ?_⟩
  exact (c5_default_missing (fun _ => none) [] [stringFlag (("n").data) (("d").data) []]
    NewDefaultOptions [] (by decide) rfl (by decide)).2.2.2 rfl

theorem mkParser_shape (o : Options) (cp : Str) :
    mkParser o cp =
      ⟨(mkParser o cp).path, o.configFlagName, (mkParser o cp).fileMustExist, 0, [], []⟩ := by
  unfold mkParser
  by_cases h : cp ≠ [] <;> simp [h]

/-- C3: a config file holding one line with an unknown key and one line with
a registered key and valid value yields exactly one recoverable error — the
unknown-flag error carrying the file path and that line's number — while the
registered flag is still set from the file; the combined failure is returned
and the command-line argument list is never parsed (the result does not depend
on it at all). -/
theorem c3_unknown_key_collected (fileSys : FileSys) (osArgs : List Str) (fs : FlagSet)
    (o : Options) (args : List Str) (lb lg ku vu kg vg w : Str) (n : Nat)
    (x : Flag) (lines : List Str)
    (hnd : ((registerControls fs o).map Flag.name).Nodup)
    (hf : fileSys (mkParser o (getFlagConfigPath o.configFlagName osArgs)).path = some lines)
    (horder : (lines = [lb, lg] ∧ n = 1) ∨ (lines = [lg, lb] ∧ n = 2))
    (hb : parseLine lb = (ku, vu)) (hbne : ku ≠ [])
    (hbunk : lookupFlag (registerControls fs o) ku = none)
    (hg : parseLine lg = (kg, vg)) (hgne : kg ≠ [])
    (hgx : lookupFlag (registerControls fs o) kg = some x)
    (hset : x.setv vg = some w) :
    (ParseArgs fileSys osArgs fs (some o) args).2 =
      Outcome.collected [FErr.unknownFlag
        (mkParser o (getFlagConfigPath o.configFlagName osArgs)).path n ku] ∧
    (lookupFlag (ParseArgs fileSys osArgs fs (some o) args).1 kg).map Flag.value = some w ∧
    (∀ args', ParseArgs fileSys osArgs fs (some o) args' =
      ParseArgs fileSys osArgs fs (some o) args) := by
  have hne : ku ≠ kg := by
    intro h
    rw [h, hgx] at hbunk
    cases hbunk
  have hku_nomem : ∀ f ∈ registerControls fs o, f.name ≠ ku :=
    lookupFlag_eq_none_iff.mp hbunk
  have hxmem : x ∈ registerControls fs o := List.mem_of_find?_eq_some hgx
  have hxname : x.name = kg := lookupFlag_name hgx
  -- the scanned map and errors, in either line order
  obtain ⟨m, hmget, hmnone, hfold⟩ :
      ∃ m : SMap, mapGet m kg = some vg ∧
        (∀ k', k' ≠ ku → k' ≠ kg → mapGet m k' = none) ∧
        lines.foldl (scanLine (registerControls fs o))
            (mkParser o (getFlagConfigPath o.configFlagName osArgs)) =
          { mkParser o (getFlagConfigPath o.configFlagName osArgs) with
            lineNo := 2
            textFlags := m
            errors := [FErr.unknownFlag
              (mkParser o (getFlagConfigPath o.configFlagName osArgs)).path n ku] } := by
    rw [mkParser_shape]
    rcases horder with ⟨hl, hn⟩ | ⟨hl, hn⟩ <;> subst hl <;> subst hn
    · refine ⟨mapSet (mapSet [] ku vu) kg vg, ?_, ?_, ?_⟩
      · rw [mapGet_mapSet_self]
      · intro k' h1 h2
        rw [mapGet_mapSet_ne _ _ h2, mapGet_mapSet_ne _ _ h1]
        rfl
      · rw [List.foldl_cons, scanLine_unknown hb hbne hbunk, List.foldl_cons,
          scanLine_known hg hgne hgx, List.foldl_nil]
        rfl
    · refine ⟨mapSet (mapSet [] kg vg) ku vu, ?_, ?_, ?_⟩
      · rw [mapGet_mapSet_ne _ _ (Ne.symm hne), mapGet_mapSet_self]
      · intro k' h1 h2
        rw [mapGet_mapSet_ne _ _ h1, mapGet_mapSet_ne _ _ h2]
        rfl
      · rw [List.foldl_cons, scanLine_known hg hgne hgx, List.foldl_cons,
          scanLine_unknown hb hbne hbunk, List.foldl_nil]
        rfl
  have hscan : scanTextFlags fileSys (registerControls fs o)
      (mkParser o (getFlagConfigPath o.configFlagName osArgs)) =
      ({ mkParser o (getFlagConfigPath o.configFlagName osArgs) with
         lineNo := 2
         textFlags := m
         errors := [FErr.unknownFlag
           (mkParser o (getFlagConfigPath o.configFlagName osArgs)).path n ku] }, none) := by
    rw [scanTextFlags_some hf, hfold]
  have hvisErr : ∀ path', (visitAll m path' (registerControls fs o)).2 = [] := by
    intro path'
    show (registerControls fs o).filterMap (visitError m path') = []
    rw [List.filterMap_eq_nil_iff]
    intro f hfm
    unfold visitError
    by_cases h1 : f.name = kg
    · have hfx : f = x :=
        List.inj_on_of_nodup_map hnd hfm hxmem (by rw [h1, hxname])
      rw [h1, hmget]
      simp only [hfx, hset]
    · have h2 : f.name ≠ ku := hku_nomem f hfm
      rw [hmnone f.name h2 h1]
  have hpp : parserParse fileSys (registerControls fs o)
      (mkParser o (getFlagConfigPath o.configFlagName osArgs)) =
      ((visitAll m (mkParser o (getFlagConfigPath o.configFlagName osArgs)).path
        (registerControls fs o)).1,
        some (Outcome.collected [FErr.unknownFlag
          (mkParser o (getFlagConfigPath o.configFlagName osArgs)).path n ku])) := by
    rw [parserParse_of_scan hscan]
    simp only []
    rw [hvisErr]
    simp
  refine ⟨?_, ?_, ?_⟩
  · rw [ParseArgs_parse_error args hpp]
  · rw [ParseArgs_parse_error args hpp]
    simp only []
    rw [lookupFlag_visitAll, hgx]
    simp [visitValue_of_get_some (show mapGet m x.name = some vg from by
      rw [hxname]; exact hmget) hset]
  · intro args'
    rw [ParseArgs_parse_error args hpp, ParseArgs_parse_error args' hpp]

theorem c3_unknown_key_collected_witness :
    (ParseArgs (fun q => if q = ("config.txt").data then
        some [("bogus 1").data, ("name bob").data] else none)
      [] [stringFlag (("name").data) (("anon").data) []] (some NewDefaultOptions) []).2 =
      Outcome.collected [FErr.unknownFlag (("config.txt").data) 1 (("bogus").data)] ∧
    (lookupFlag (ParseArgs (fun q => if q = ("config.txt").data then
        some [("bogus 1").data, ("name bob").data] else none)
      [] [stringFlag (("name").data) (("anon").data) []] (some NewDefaultOptions) []).1
      (("name").data)).map Flag.value = some (("bob").data) := by
  have h := c3_unknown_key_collected
    (fun q => if q = ("config.txt").data then
      some [("bogus 1").data, ("name bob").data] else none)
    [] [stringFlag (("name").data) (("anon").data) []] NewDefaultOptions []
    (("bogus 1").data) (("name bob").data) (("bogus").data) (("1").data)
    (("name").data) (("bob").data) (("bob").data) 1
    (stringFlag (("name").data) (("anon").data) [])
    [("bogus 1").data, ("name bob").data]
    (by decide) rfl (Or.inl ⟨rfl, rfl⟩) (by decide) (by decide) rfl (by decide)
    (by decide) rfl rfl
  exact ⟨h.1, h.2.1⟩

/-- C1: after a ParseArgs in which the file phase succeeded and supplied a
value for a registered flag, and the argument list then supplies `-name=value`
for the same flag, the flag's final value is the one the command line
supplied: the registry's own argument parse runs after the file values were
applied to the same flag objects, so it overwrites them. -/
theorem c1_commandline_overrides_file (fileSys : FileSys) (osArgs : List Str) (fs : FlagSet)
    (o : Options) (xname va vf w : Str) (x : Flag) (p1 : Parser)
    (hreg : lookupFlag (registerControls fs o) xname = some x)
    (hn1 : xname ≠ []) (hn2 : xname.headD ' ' ≠ '-') (hn3 : xname.headD ' ' ≠ '=')
    (hn4 : ('=' : Char) ∉ xname)
    (hscan : scanTextFlags fileSys (registerControls fs o)
      (mkParser o (getFlagConfigPath o.configFlagName osArgs)) = (p1, none))
    (hfile : mapGet p1.textFlags xname = some vf)
    (hfapp : x.setv vf ≠ none)
    (herr1 : p1.errors = [])
    (herr2 : (visitAll p1.textFlags p1.path (registerControls fs o)).2 = [])
    (hset : x.setv va = some w) :
    (ParseArgs fileSys osArgs fs (some o) ['-' :: (xname ++ '=' :: va)]).1 =
      updateFlag (visitAll p1.textFlags p1.path (registerControls fs o)).1 xname w ∧
    (lookupFlag (ParseArgs fileSys osArgs fs (some o) ['-' :: (xname ++ '=' :: va)]).1
      xname).map Flag.value = some w ∧
    ((ParseArgs fileSys osArgs fs (some o) ['-' :: (xname ++ '=' :: va)]).2 = Outcome.ok ∨
     ∃ out, (ParseArgs fileSys osArgs fs (some o) ['-' :: (xname ++ '=' :: va)]).2 =
       Outcome.errWriteConfig out) := by
  have hpp : parserParse fileSys (registerControls fs o)
      (mkParser o (getFlagConfigPath o.configFlagName osArgs)) =
      ((visitAll p1.textFlags p1.path (registerControls fs o)).1, none) := by
    rw [parserParse_of_scan hscan]
    simp [herr1, herr2]
  have hlook2 : lookupFlag (visitAll p1.textFlags p1.path (registerControls fs o)).1 xname =
      some (visitValue p1.textFlags x) := by
    rw [lookupFlag_visitAll, hreg]
    rfl
  have hset2 : (visitValue p1.textFlags x).setv va = some w := by
    rw [visitValue_setv]
    exact hset
  have hfsp := fsParse_single_eq hn1 hn2 hn3 hn4 hlook2 hset2
  have hmain := ParseArgs_after_parse ['-' :: (xname ++ '=' :: va)] hpp
  rw [hmain]
  simp only [hfsp]
  refine ⟨?_, ?_, ?_⟩
  · by_cases hw : getFlagWriteConfig o.writeConfigFlagName osArgs <;> simp [hw]
  · by_cases hw : getFlagWriteConfig o.writeConfigFlagName osArgs <;>
      simp [hw, lookupFlag_updateFlag_self w hlook2]
  · by_cases hw : getFlagWriteConfig o.writeConfigFlagName osArgs
    · right
      refine ⟨writeFlagSetConfig
        (updateFlag (visitAll p1.textFlags p1.path (registerControls fs o)).1 xname w)
        [o.configFlagName, o.writeConfigFlagName], ?_⟩
      simp [hw]
    · left
      simp [hw]

theorem c1_commandline_overrides_file_witness :
    (lookupFlag (ParseArgs
      (fun q => if q = ("config.txt").data then some [("name file").data] else none)
      [] [stringFlag (("name").data) (("anon").data) []] (some NewDefaultOptions)
      ['-' :: ((("name").data) ++ '=' :: (("cli").data))]).1
      (("name").data)).map Flag.value = some (("cli").data) :=
  (c1_commandline_overrides_file
    (fun q => if q = ("config.txt").data then some [("name file").data] else none)
    [] [stringFlag (("name").data) (("anon").data) []] NewDefaultOptions
    (("name").data) (("cli").data) (("file").data) (("cli").data)
    (stringFlag (("name").data) (("anon").data) [])
    ⟨("config.txt").data, ("config").data, false, 1,
      [((("name").data : Str), (("file").data : Str))], []⟩
    rfl (by decide) (by decide) (by decide) (by decide) rfl rfl (by decide) rfl rfl rfl).2.1

/-- C9: when the write-config trigger was registered and scanned true from the
raw process arguments and both the file phase and the argument parse succeed,
`ParseArgs` returns the `ErrWriteConfig` sentinel (never plain success)
together with the configuration dump, whose active (non-comment) lines are
exactly one `name value` line per non-excluded flag whose current value
differs from its default. -/
theorem c9_write_config (fileSys : FileSys) (osArgs : List Str) (fs : FlagSet)
    (o : Options) (args : List Str) (fs2 fs3 : FlagSet)
    (hwname : o.writeConfigFlagName ≠ [])
    (htrig : getFlagWriteConfig o.writeConfigFlagName osArgs = true)
    (hpp : parserParse fileSys (registerControls fs o)
      (mkParser o (getFlagConfigPath o.configFlagName osArgs)) = (fs2, none))
    (hargs : fsParse fs2 args = (fs3, none))
    (hwf : ∀ f ∈ fs3, wfName f.name ∧ nl ∉ f.value ∧ nl ∉ f.defValue) :
    ParseArgs fileSys osArgs fs (some o) args =
      (fs3, Outcome.errWriteConfig
        (writeFlagSetConfig fs3 [o.configFlagName, o.writeConfigFlagName])) ∧
    (splitNl (writeFlagSetConfig fs3 [o.configFlagName, o.writeConfigFlagName])).filter
        (fun l => ! isComment (trimSpace l)) =
      ((fs3.filter (fun f =>
          decide (f.name ∉ [o.configFlagName, o.writeConfigFlagName]))).filter
        (fun f => decide (f.defValue ≠ f.value))).map (fun f => f.name ++ ' ' :: f.value) ∧
    (∀ s, Outcome.errWriteConfig s ≠ Outcome.ok) := by
  refine ⟨?_, writer_active fs3 _ hwf, fun s h => by cases h⟩
  rw [ParseArgs_after_parse args hpp]
  simp [hargs, htrig]

theorem c9_write_config_witness :
    (getFlagWriteConfig NewDefaultOptions.writeConfigFlagName [("-write-config").data] = true) ∧
    isErrWriteConfig (ParseArgs (fun _ => none) [("-write-config").data]
      [stringFlag (("name").data) (("anon").data) []] (some NewDefaultOptions)
      [("-name=bob").data]).2 = true := by
  refine ⟨by decide, ?_⟩
  have h := c9_write_config (fun _ => none) [("-write-config").data]
    [stringFlag (("name").data) (("anon").data) []] NewDefaultOptions [("-name=bob").data]
    _ _ (by decide) (by decide) rfl rfl (by decide)
  rw [h.1]
  rfl

/-- C2 (round-trip law): write a flag set's configuration, scan that exact
output back into a fresh flag set with identical flag definitions (every
value reset to its default), and apply it: the scan and apply phases succeed
with no error, and every flag ends with its original value — non-default
values are reproduced from the file's active lines, and default-valued flags
(which emit no active line) re-parse to their defaults. -/
theorem c2_roundtrip (fs : FlagSet) (path0 cfg0 : Str) (mustE : Bool)
    (hnd : (fs.map Flag.name).Nodup)
    (hwf : ∀ f ∈ fs, wfName f.name ∧ wfValue f.value ∧ nl ∉ f.defValue)
    (hfix : ∀ f ∈ fs, f.setv f.value = some f.value) :
    (parserParse
      (fun q => if q = path0 then some (splitNl (writeFlagSetConfig fs [])) else none)
      (fs.map (fun f => { f with value := f.defValue }))
      ⟨path0, cfg0, mustE, 0, [], []⟩).2 = none ∧
    (parserParse
      (fun q => if q = path0 then some (splitNl (writeFlagSetConfig fs [])) else none)
      (fs.map (fun f => { f with value := f.defValue }))
      ⟨path0, cfg0, mustE, 0, [], []⟩).1.map (fun f => (f.name, f.value)) =
      fs.map (fun f => (f.name, f.value)) := by
  have hfilter_id : fs.filter (fun f => decide (f.name ∉ ([] : List Str))) = fs := by
    apply List.filter_eq_self.mpr
    intro f _
    simp
  have hentries : (splitNl (writeFlagSetConfig fs [])).filterMap lineEntry =
      (fs.filter (fun f => decide (f.defValue ≠ f.value))).map (fun f => (f.name, f.value)) := by
    rw [writer_entries fs [] hwf, hfilter_id]
  have hreg : ∀ e ∈ (splitNl (writeFlagSetConfig fs [])).filterMap lineEntry,
      lookupFlag (fs.map (fun f => { f with value := f.defValue })) e.1 ≠ none := by
    intro e he
    rw [hentries] at he
    obtain ⟨f, hf, rfl⟩ := List.mem_map.mp he
    apply lookupFlag_ne_none_of_mem
    exact ⟨{ f with value := f.defValue },
      List.mem_map_of_mem _ (List.mem_of_mem_filter hf), rfl⟩
  have hscan := scan_fold_known (fs.map (fun f => { f with value := f.defValue }))
    (splitNl (writeFlagSetConfig fs [])) ⟨path0, cfg0, mustE, 0, [], []⟩ hreg
  have hkeysnd : (((splitNl (writeFlagSetConfig fs [])).filterMap lineEntry).map
      Prod.fst).Nodup := by
    rw [hentries, List.map_map]
    have hc : (Prod.fst ∘ fun f : Flag => (f.name, f.value)) = Flag.name := rfl
    rw [hc]
    exact List.Nodup.sublist ((List.filter_sublist _).map _) hnd
  -- what the scanned map holds at each flag's name
  have hfind : ∀ f ∈ fs,
      ((fs.filter (fun g => decide (g.defValue ≠ g.value))).find?
        (fun g => decide (g.name = f.name))) =
      (if f.defValue ≠ f.value then some f else none) := by
    intro f hf
    by_cases hd : f.defValue ≠ f.value
    · rw [if_pos hd]
      apply find?_unique
      · exact List.mem_filter.mpr ⟨hf, by simpa using hd⟩
      · simp
      · intro g hg hgname
        exact List.inj_on_of_nodup_map hnd (List.mem_of_mem_filter hg) hf (by simpa using hgname)
    · rw [if_neg hd]
      rw [List.find?_eq_none]
      intro g hg hgname
      have hgf : g = f :=
        List.inj_on_of_nodup_map hnd (List.mem_of_mem_filter hg) hf (by simpa using hgname)
      have := List.mem_filter.mp hg
      rw [hgf] at this
      exact hd (by simpa using this.2)
  have hget : ∀ f ∈ fs,
      mapGet (((splitNl (writeFlagSetConfig fs [])).filterMap lineEntry).foldl
        (fun m e => mapSet m e.1 e.2) []) f.name =
      (if f.defValue ≠ f.value then some f.value else none) := by
    intro f hf
    rw [mapGet_foldl_nodup hkeysnd]
    rw [hentries, List.find?_map]
    have hc : ((fun e : Str × Str => decide (e.1 = f.name)) ∘ fun g : Flag => (g.name, g.value))
        = fun g : Flag => decide (g.name = f.name) := rfl
    rw [hc, hfind f hf]
    by_cases hd : f.defValue ≠ f.value <;> simp [hd, mapGet]
  -- the visit pass restores every value and produces no error
  have hvisval : ∀ f ∈ fs,
      visitValue (((splitNl (writeFlagSetConfig fs [])).filterMap lineEntry).foldl
        (fun m e => mapSet m e.1 e.2) []) { f with value := f.defValue } =
      { f with value := f.value } := by
    intro f hf
    by_cases hd : f.defValue ≠ f.value
    · have hg : mapGet (((splitNl (writeFlagSetConfig fs [])).filterMap lineEntry).foldl
          (fun m e => mapSet m e.1 e.2) [])
          ({ f with value := f.defValue } : Flag).name = some f.value := by
        rw [show ({ f with value := f.defValue } : Flag).name = f.name from rfl, hget f hf,
          if_pos hd]
      rw [visitValue_of_get_some hg (by
        rw [show ({ f with value := f.defValue } : Flag).setv = f.setv from rfl]
        exact hfix f hf)]
    · have hg : mapGet (((splitNl (writeFlagSetConfig fs [])).filterMap lineEntry).foldl
          (fun m e => mapSet m e.1 e.2) [])
          ({ f with value := f.defValue } : Flag).name = none := by
        rw [show ({ f with value := f.defValue } : Flag).name = f.name from rfl, hget f hf,
          if_neg hd]
      rw [visitValue_of_get_none hg]
      have hv : f.defValue = f.value := by
        by_contra hcon
        exact hd hcon
      rw [hv]
  have hviserr : (fs.map (fun f => { f with value := f.defValue })).filterMap
      (visitError (((splitNl (writeFlagSetConfig fs [])).filterMap lineEntry).foldl
        (fun m e => mapSet m e.1 e.2) []) path0) = [] := by
    rw [List.filterMap_eq_nil_iff]
    intro g hg
    obtain ⟨f, hf, rfl⟩ := List.mem_map.mp hg
    unfold visitError
    by_cases hd : f.defValue ≠ f.value
    · rw [show ({ f with value := f.defValue } : Flag).name = f.name from rfl, hget f hf,
        if_pos hd]
      simp only [show ({ f with value := f.defValue } : Flag).setv = f.setv from rfl,
        hfix f hf]
    · rw [show ({ f with value := f.defValue } : Flag).name = f.name from rfl, hget f hf,
        if_neg hd]
  -- assemble the parser run
  have hfsys : (fun q => if q = path0 then some (splitNl (writeFlagSetConfig fs [])) else none)
      ((⟨path0, cfg0, mustE, 0, [], []⟩ : Parser).path) =
      some (splitNl (writeFlagSetConfig fs [])) := by
    simp
  have hscanEq := @scanTextFlags_some
    (fun q => if q = path0 then some (splitNl (writeFlagSetConfig fs [])) else none)
    (fs.map (fun f => { f with value := f.defValue }))
    ⟨path0, cfg0, mustE, 0, [], []⟩
    (splitNl (writeFlagSetConfig fs [])) hfsys
  have hpp := parserParse_of_scan hscanEq
  rw [hscan] at hpp
  simp only [] at hpp
  rw [hpp]
  have hr2 : (visitAll (((splitNl (writeFlagSetConfig fs [])).filterMap lineEntry).foldl
      (fun m e => mapSet m e.1 e.2) []) path0
      (fs.map (fun f => { f with value := f.defValue }))).2 = [] := hviserr
  constructor
  · simp [visitAll, hviserr]
  · simp [visitAll, hviserr, List.map_map]
    intro f hf
    rw [hvisval f hf]
    exact ⟨rfl, rfl⟩

theorem c2_roundtrip_witness :
    ((parserParse
      (fun q => if q = ("c.txt").data then
        some (splitNl (writeFlagSetConfig (updateFlag
          [stringFlag (("name").data) (("anon").data) (("your name").data),
           boolFlag (("verbose").data) (("be verbose").data)]
          (("name").data) (("bob").data)) [])) else none)
      ((updateFlag
          [stringFlag (("name").data) (("anon").data) (("your name").data),
           boolFlag (("verbose").data) (("be verbose").data)]
          (("name").data) (("bob").data)).map (fun f => { f with value := f.defValue }))
      ⟨("c.txt").data, [], false, 0, [], []⟩).2 = none) ∧
    ((parserParse
      (fun q => if q = ("c.txt").data then
        some (splitNl (writeFlagSetConfig (updateFlag
          [stringFlag (("name").data) (("anon").data) (("your name").data),
           boolFlag (("verbose").data) (("be verbose").data)]
          (("name").data) (("bob").data)) [])) else none)
      ((updateFlag
          [stringFlag (("name").data) (("anon").data) (("your name").data),
           boolFlag (("verbose").data) (("be verbose").data)]
          (("name").data) (("bob").data)).map (fun f => { f with value := f.defValue }))
      ⟨("c.txt").data, [], false, 0, [], []⟩).1.map (fun f => (f.name, f.value)) =
      (updateFlag
          [stringFlag (("name").data) (("anon").data) (("your name").data),
           boolFlag (("verbose").data) (("be verbose").data)]
          (("name").data) (("bob").data)).map (fun f => (f.name, f.value))) :=
  c2_roundtrip
    (updateFlag
      [stringFlag (("name").data) (("anon").data) (("your name").data),
       boolFlag (("verbose").data) (("be verbose").data)]
      (("name").data) (("bob").data))
    (("c.txt").data) [] false (by decide) (by decide) (by decide)

end Fflag
